import Mathlib

/-!
Verification development for the `transit` data pipeline.

This file gives a shallow embedding, in Lean 4, of the core decode / ingest /
query logic of the repository:

* the tiny protobuf reader and snapshot writer of
  `workers/transit-gtfsrt-worker/src/index.js` (bronze ingestion worker);
* the extended protobuf parser and the hot/historical query handlers of
  `gold/workers/transit-rt-api-worker/src/index.js` (gold API worker);
* the aggregate-table shape of `migrations/002_create_rt_aggregation_tables.sql`.

Modelling conventions:

* JavaScript `Uint8Array` buffers are `List Nat` with entries in `[0, 256)`;
  out-of-range reads (`u8[pos]` past the end, which yield `undefined` in JS)
  are modelled exactly as the JS bitwise operators treat `undefined`, namely
  as the byte 0 with no continuation bit.
* JS `number` values produced by `Number(bigint)` are modelled as exact
  naturals; the IEEE-754 rounding that JS applies above 2^53 is not modelled
  (all divergences relevant below stay on the same side of every comparison).
* `x & 0x7f` on a byte is written `x % 128`, `(x & 0x80) === 0` is written
  `x % 256 < 128`, and `key & 7` is written `key % 8` (the low three bits of
  the 32-bit truncation that JS bitwise operators apply, which coincide with
  `key % 8` because 8 divides 2^32).
* `key >> 3` in JS first truncates `key` to a signed 32-bit integer and then
  arithmetically shifts; this is modelled exactly by `jsFieldNo` below.
* While loops are modelled by fuel-indexed structural recursion, where the
  fuel passed at each call site (`e - pos` iterations for a loop scanning
  `pos < e`) is sufficient because every iteration strictly advances `pos`;
  this adequacy is itself proved (see the termination theorem for claim C10).
-/

namespace Transit

/-- JS `ToInt32`: truncation of a nonnegative integer to a signed 32-bit
integer, as applied by JS bitwise operators. -/
def toInt32 (n : Nat) : Int :=
  let m : Nat := n % 2 ^ 32
  if m < 2 ^ 31 then (m : Int) else (m : Int) - 2 ^ 32

/-- JS `key >> 3`: signed 32-bit truncation followed by an arithmetic right
shift by three bits (floor division by 8). -/
def jsFieldNo (key : Nat) : Int :=
  Int.fdiv (toInt32 key) 8

/-! ## The varint reader (`readVarint` in both workers)

```js
function readVarint(u8, i) {
  let x = 0n, s = 0n, b;
  let pos = i;
  while (true) {
    b = u8[pos++];
    x |= BigInt(b & 0x7f) << s;
    if ((b & 0x80) === 0) break;
    s += 7n;
  }
  return { value: Number(x), next: pos };
}
```

The accumulator `x |= chunk << s` is a sum of disjoint 7-bit chunks, so it is
modelled additively.  When `pos` runs past the end of the buffer, `u8[pos]`
is `undefined`; `undefined & 0x7f` is `0` and `undefined & 0x80` is `0`, so
the loop contributes a zero chunk and stops — it never throws. -/

/-- One pass of the varint loop over the byte suffix starting at `pos`. -/
def readVarintAux : List Nat → Nat → Nat → Nat → Nat × Nat
  | [], pos, _, acc => (acc, pos + 1)
  | b :: rest, pos, shift, acc =>
    if b % 256 < 128 then (acc + b % 128 * 2 ^ shift, pos + 1)
    else readVarintAux rest (pos + 1) (shift + 7) (acc + b % 128 * 2 ^ shift)

/-- `readVarint(u8, i)` returning `(value, next)`. -/
def readVarint (u8 : List Nat) (i : Nat) : Nat × Nat :=
  readVarintAux (u8.drop i) i 0 0

/-- `skipField(u8, pos, wireType)` from both workers: advance the cursor past
one field payload of the given wire type (wire types 3 and 4 fall through and
leave the cursor unchanged). -/
def skipField (u8 : List Nat) (pos wireType : Nat) : Nat :=
  if wireType = 0 then (readVarint u8 pos).2
  else if wireType = 1 then pos + 8
  else if wireType = 2 then
    (readVarint u8 pos).2 + (readVarint u8 pos).1
  else if wireType = 5 then pos + 4
  else pos

/-! ## Header and top-level envelope parsing (bronze worker)

`parseHeaderTimestamp` scans a header submessage for field 3 (varint);
`parseFeedMeta` scans the top level, counting field-2 length-delimited
entities and extracting the header timestamp. -/

/-- The `while (pos < end)` loop of `parseHeaderTimestamp`, fuel-indexed. -/
def parseHeaderTimestampLoopF : Nat → List Nat → Nat → Nat → Option Nat → Option Nat
  | 0, _, _, _, ts => ts
  | fuel + 1, u8, e, pos, ts =>
    if pos < e then
      let k := readVarint u8 pos
      if jsFieldNo k.1 = 3 ∧ k.1 % 8 = 0 then
        parseHeaderTimestampLoopF fuel u8 e (readVarint u8 k.2).2 (some (readVarint u8 k.2).1)
      else
        parseHeaderTimestampLoopF fuel u8 e (skipField u8 k.2 (k.1 % 8)) ts
    else ts

/-- `parseHeaderTimestamp(u8, start, end)`: the loop makes at most `e - start`
iterations because each iteration strictly advances the cursor. -/
def parseHeaderTimestamp (u8 : List Nat) (start e : Nat) : Option Nat :=
  parseHeaderTimestampLoopF (e - start) u8 e start none

/-- The `while (pos < u8.length)` loop of `parseFeedMeta`, fuel-indexed.
State: cursor, running entity count, last header timestamp seen.  On a
length-delimited field the cursor jumps to `subEnd = next2 + len` whether or
not the field is recognized; field 1 re-parses the header (the timestamp is
kept only when one was found), field 2 bumps the entity count. -/
def parseFeedMetaLoopF : Nat → List Nat → Nat → Nat → Option Nat → Nat × Option Nat
  | 0, _, _, ec, ts => (ec, ts)
  | fuel + 1, u8, pos, ec, ts =>
    if pos < u8.length then
      let k := readVarint u8 pos
      if k.1 % 8 = 2 then
        let r := readVarint u8 k.2
        if jsFieldNo k.1 = 1 then
          parseFeedMetaLoopF fuel u8 (r.2 + r.1) ec
            (match parseHeaderTimestamp u8 r.2 (r.2 + r.1) with
             | some t => some t
             | none => ts)
        else if jsFieldNo k.1 = 2 then
          parseFeedMetaLoopF fuel u8 (r.2 + r.1) (ec + 1) ts
        else
          parseFeedMetaLoopF fuel u8 (r.2 + r.1) ec ts
      else
        parseFeedMetaLoopF fuel u8 (skipField u8 k.2 (k.1 % 8)) ec ts
    else (ec, ts)

/-- `parseFeedMeta(ab)` returning `(entityCount, headerTsSec)`.  The loop
never needs more than `u8.length` iterations (each one strictly advances the
cursor, and the loop stops once the cursor passes the end). -/
def parseFeedMeta (u8 : List Nat) : Nat × Option Nat :=
  parseFeedMetaLoopF u8.length u8 0 0 none

/-! ## Progress lemmas

Every varint read strictly advances the cursor (even past the end of the
buffer) and every skip is non-decreasing; these facts justify the fuel
budgets used above. -/

theorem readVarintAux_next_gt (l : List Nat) :
    ∀ pos shift acc, pos < (readVarintAux l pos shift acc).2 := by
  induction l with
  | nil => intro pos shift acc; simp [readVarintAux]
  | cons b rest ih =>
    intro pos shift acc
    simp only [readVarintAux]
    split
    · simp
    · exact Nat.lt_of_succ_le (Nat.le_of_lt (ih (pos + 1) (shift + 7) _))

theorem readVarint_next_gt (u8 : List Nat) (pos : Nat) :
    pos < (readVarint u8 pos).2 :=
  readVarintAux_next_gt (u8.drop pos) pos 0 0

theorem skipField_ge (u8 : List Nat) (pos wt : Nat) :
    pos ≤ skipField u8 pos wt := by
  unfold skipField
  split
  · exact Nat.le_of_lt (readVarint_next_gt u8 pos)
  · split
    · omega
    · split
      · have := readVarint_next_gt u8 pos; omega
      · split <;> omega

/-! ## Montreal-time formatting and the snapshot writer (bronze worker)

`fmtYMD_Montreal` / `fmtISO_Montreal` format a `Date` through
`toLocaleString('en-CA', \x7b timeZone: 'America/Toronto', ... \x7d)`.  The
time-zone conversion itself is an external runtime service; it is modelled by
handing the functions the already-converted Montreal-local calendar
components.  `en-CA` with `year: 'numeric'` and 2-digit fields yields
`YYYY-MM-DD` and, after the `replace` chain, `YYYY-MM-DDTHH-MM-SS`. -/

/-- Montreal-local calendar components of an instant, as produced by
`toLocaleString` with `timeZone: 'America/Toronto'`. -/
structure LocalTime where
  year : Nat
  month : Nat
  day : Nat
  hour : Nat
  minute : Nat
  second : Nat
deriving DecidableEq, Repr

/-- Two-digit zero padding, as `'2-digit'` formatting produces. -/
def pad2 (n : Nat) : String :=
  if n < 10 then "0" ++ toString n else toString n

/-- `fmtYMD_Montreal`: "YYYY-MM-DD" from the Montreal-local components. -/
def fmtYMD (t : LocalTime) : String :=
  toString t.year ++ "-" ++ pad2 t.month ++ "-" ++ pad2 t.day

/-- `fmtISO_Montreal`: "YYYY-MM-DDTHH-MM-SS" from the Montreal-local
components (the `:` separators are replaced by `-` for use in file names). -/
def fmtISO (t : LocalTime) : String :=
  fmtYMD t ++ "T" ++ pad2 t.hour ++ "-" ++ pad2 t.minute ++ "-" ++ pad2 t.second

/-- One row of `rt_trip_updates_raw` / `rt_vehicle_positions_raw` as written
by `saveRT` (the `ingested_at` column, `datetime('now','localtime')`, is an
external clock read and is not modelled). -/
structure RawRow where
  provider_key : String
  feed_id : Nat
  feed_ts : Option String
  hash_sha256 : String
  entity_count : Nat
deriving DecidableEq, Repr

/-- The stores touched by `saveRT`: the two D1 raw-snapshot tables and the R2
bucket (key, bytes); `R2.put` appends a blob under its key. -/
structure Store where
  rt_trip_updates_raw : List RawRow
  rt_vehicle_positions_raw : List RawRow
  r2 : List (String × List Nat)
deriving DecidableEq, Repr

/-- The empty store. -/
def Store.empty : Store := ⟨[], [], []⟩

/-- The table `saveRT` works in:
`(kind === "gtfsrt_trip_updates") ? "rt_trip_updates_raw" : "rt_vehicle_positions_raw"`. -/
def tableOf (st : Store) (kind : String) : List RawRow :=
  if kind = "gtfsrt_trip_updates" then st.rt_trip_updates_raw
  else st.rt_vehicle_positions_raw

/-- Replace the table `saveRT` works in. -/
def setTable (st : Store) (kind : String) (t : List RawRow) : Store :=
  if kind = "gtfsrt_trip_updates" then { st with rt_trip_updates_raw := t }
  else { st with rt_vehicle_positions_raw := t }

/-- Outcome of `saveRT`: `\x7b skipped: true \x7d` or
`\x7b skipped: false, path \x7d`. -/
inductive SaveResult where
  | skipped
  | saved (path : String)
deriving DecidableEq, Repr

/-- The Montreal-local rendering of the decoded header timestamp:
`if (typeof headerTsSec === 'number' && headerTsSec > 0)` produces a
formatted TEXT value, otherwise the column stays NULL. -/
def feedTsLocalOf (toLocal : Nat → LocalTime) (headerTsSec : Option Nat) : Option String :=
  match headerTsSec with
  | some ts => if 0 < ts then some (fmtISO (toLocal ts)) else none
  | none => none

/-- `saveRT(env, pkey, feed_id, kind, ab)`.

External primitives are passed as parameters: `hash` models `sha256Hex`
(`crypto.subtle.digest("SHA-256", ·)` rendered as lowercase hex), and
`toLocal` models `new Date(sec * 1000)` converted to Montreal-local
components; `now` is the Montreal-local view of the current instant
(`new Date()`).

The function: hashes the bytes; skips if a row with the same
`(provider_key, hash_sha256)` exists in the kind's table; otherwise parses
the metadata, writes the blob under
`gtfs-rt/PKEY/KIND/dt=DATE/KIND_ISO.pb`, and inserts the metadata row. -/
def saveRT (hash : List Nat → String) (toLocal : Nat → LocalTime) (now : LocalTime)
    (st : Store) (pkey : String) (feed_id : Nat) (kind : String) (ab : List Nat) :
    Store × SaveResult :=
  let h := hash ab
  if (tableOf st kind).any (fun r => r.provider_key = pkey ∧ r.hash_sha256 = h) then
    (st, .skipped)
  else
    let meta := parseFeedMeta ab
    let date := fmtYMD now
    let isoLocal := fmtISO now
    let fname := kind ++ "_" ++ isoLocal ++ ".pb"
    let path := "gtfs-rt/" ++ pkey ++ "/" ++ kind ++ "/dt=" ++ date ++ "/" ++ fname
    let feedTsLocal : Option String := feedTsLocalOf toLocal meta.2
    let row : RawRow :=
      { provider_key := pkey, feed_id := feed_id, feed_ts := feedTsLocal,
        hash_sha256 := h, entity_count := meta.1 }
    let st1 := { st with r2 := st.r2 ++ [(path, ab)] }
    (setTable st1 kind (tableOf st1 kind ++ [row]), .saved path)

/-- Number of rows of a table carrying a given `(provider_key, hash_sha256)`
pair. -/
def rowCount (t : List RawRow) (p h : String) : Nat :=
  (t.filter fun r => r.provider_key = p ∧ r.hash_sha256 = h).length

/-! ## The extended protobuf parser (gold worker)

`gold/workers/transit-rt-api-worker/src/index.js` duplicates `readVarint`,
`skipField` and `parseHeaderTimestamp` verbatim (they are embedded once
above) and adds entity-level parsers.

JS strings produced by `new TextDecoder().decode(bytes)` are modelled through
a decoding parameter `utf8 : List Nat → String` (the default `TextDecoder` is
non-fatal and never throws).

`parsePosition` builds `new DataView(u8.buffer, u8.byteOffset + pos, 4)` — a
four-byte window — and then calls `view.getFloat32(pos, true)`, i.e. it reads
at byte offset `pos` *inside that four-byte window*.  The `DataView`
constructor throws a `RangeError` unless `pos + 4 ≤ u8.length`, and
`getFloat32` throws a `RangeError` unless `pos + 4 ≤ 4`; since `pos` is an
absolute cursor (at least 1 after the field key has been read), the float
read always throws.  Both failure points are modelled as `Except` errors.
The four little-endian payload bytes are retained as a raw bit pattern; the
IEEE-754 single-precision interpretation is not modelled (it is unreachable). -/

/-- A thrown JS `RangeError` (from the `DataView` path in `parsePosition`). -/
inductive JsError where
  | rangeError
deriving DecidableEq, Repr

/-- `u8.subarray(s, e)` (clamping slice). -/
def sliceBytes (u8 : List Nat) (s e : Nat) : List Nat :=
  (u8.take e).drop s

/-- `parseTripDescriptor(u8, start, end)`: field 1 is `trip_id`, field 3 is
`route_id` (both length-delimited strings); everything else is skipped. -/
structure TripDescriptor where
  trip_id : Option String
  route_id : Option String
deriving DecidableEq, Repr

def parseTripDescriptorLoopF (utf8 : List Nat → String) :
    Nat → List Nat → Nat → Nat → TripDescriptor → TripDescriptor
  | 0, _, _, _, td => td
  | fuel + 1, u8, e, pos, td =>
    if pos < e then
      let k := readVarint u8 pos
      if k.1 % 8 = 2 then
        let r := readVarint u8 k.2
        let str := utf8 (sliceBytes u8 r.2 (r.2 + r.1))
        if jsFieldNo k.1 = 1 then
          parseTripDescriptorLoopF utf8 fuel u8 e (r.2 + r.1) { td with trip_id := some str }
        else if jsFieldNo k.1 = 3 then
          parseTripDescriptorLoopF utf8 fuel u8 e (r.2 + r.1) { td with route_id := some str }
        else
          parseTripDescriptorLoopF utf8 fuel u8 e (r.2 + r.1) td
      else
        parseTripDescriptorLoopF utf8 fuel u8 e (skipField u8 k.2 (k.1 % 8)) td
    else td

def parseTripDescriptor (utf8 : List Nat → String) (u8 : List Nat) (start e : Nat) :
    TripDescriptor :=
  parseTripDescriptorLoopF utf8 (e - start) u8 e start ⟨none, none⟩

/-- `parseVehicleDescriptor(u8, start, end)`: field 1 is `id`. -/
structure VehicleDescriptor where
  id : Option String
deriving DecidableEq, Repr

def parseVehicleDescriptorLoopF (utf8 : List Nat → String) :
    Nat → List Nat → Nat → Nat → VehicleDescriptor → VehicleDescriptor
  | 0, _, _, _, vd => vd
  | fuel + 1, u8, e, pos, vd =>
    if pos < e then
      let k := readVarint u8 pos
      if k.1 % 8 = 2 then
        let r := readVarint u8 k.2
        let str := utf8 (sliceBytes u8 r.2 (r.2 + r.1))
        if jsFieldNo k.1 = 1 then
          parseVehicleDescriptorLoopF utf8 fuel u8 e (r.2 + r.1) { id := some str }
        else
          parseVehicleDescriptorLoopF utf8 fuel u8 e (r.2 + r.1) vd
      else
        parseVehicleDescriptorLoopF utf8 fuel u8 e (skipField u8 k.2 (k.1 % 8)) vd
    else vd

def parseVehicleDescriptor (utf8 : List Nat → String) (u8 : List Nat) (start e : Nat) :
    VehicleDescriptor :=
  parseVehicleDescriptorLoopF utf8 (e - start) u8 e start ⟨none⟩

/-- `parseStopTimeEvent(u8, start, end)`: field 1 is `delay`, field 2 is
`time`, both read with the (unsigned) `readVarint`; a field that is absent
from the bytes leaves the JS initializer `null`, modelled by `none`. -/
structure StopTimeEvent where
  delay : Option Nat
  time : Option Nat
deriving DecidableEq, Repr

def parseStopTimeEventLoopF : Nat → List Nat → Nat → Nat → StopTimeEvent → StopTimeEvent
  | 0, _, _, _, ste => ste
  | fuel + 1, u8, e, pos, ste =>
    if pos < e then
      let k := readVarint u8 pos
      if jsFieldNo k.1 = 1 ∧ k.1 % 8 = 0 then
        let r := readVarint u8 k.2
        parseStopTimeEventLoopF fuel u8 e r.2 { ste with delay := some r.1 }
      else if jsFieldNo k.1 = 2 ∧ k.1 % 8 = 0 then
        let r := readVarint u8 k.2
        parseStopTimeEventLoopF fuel u8 e r.2 { ste with time := some r.1 }
      else
        parseStopTimeEventLoopF fuel u8 e (skipField u8 k.2 (k.1 % 8)) ste
    else ste

def parseStopTimeEvent (u8 : List Nat) (start e : Nat) : StopTimeEvent :=
  parseStopTimeEventLoopF (e - start) u8 e start ⟨none, none⟩

/-- `parseStopTimeUpdate(u8, start, end)`: field 1 is `stop_id` (string),
fields 2/3 are the arrival/departure `StopTimeEvent` submessages, field 4 is
the `stop_sequence` varint.  The JS initializers `arrival: \x7b\x7d` and
`departure: \x7b\x7d` carry no delay/time, modelled as `⟨none, none⟩`. -/
structure StopTimeUpdate where
  stop_id : Option String
  stop_sequence : Option Nat
  arrival : StopTimeEvent
  departure : StopTimeEvent
deriving DecidableEq, Repr

def parseStopTimeUpdateLoopF (utf8 : List Nat → String) :
    Nat → List Nat → Nat → Nat → StopTimeUpdate → StopTimeUpdate
  | 0, _, _, _, stu => stu
  | fuel + 1, u8, e, pos, stu =>
    if pos < e then
      let k := readVarint u8 pos
      if k.1 % 8 = 2 then
        let r := readVarint u8 k.2
        if jsFieldNo k.1 = 1 then
          parseStopTimeUpdateLoopF utf8 fuel u8 e (r.2 + r.1)
            { stu with stop_id := some (utf8 (sliceBytes u8 r.2 (r.2 + r.1))) }
        else if jsFieldNo k.1 = 2 then
          parseStopTimeUpdateLoopF utf8 fuel u8 e (r.2 + r.1)
            { stu with arrival := parseStopTimeEvent u8 r.2 (r.2 + r.1) }
        else if jsFieldNo k.1 = 3 then
          parseStopTimeUpdateLoopF utf8 fuel u8 e (r.2 + r.1)
            { stu with departure := parseStopTimeEvent u8 r.2 (r.2 + r.1) }
        else
          parseStopTimeUpdateLoopF utf8 fuel u8 e (r.2 + r.1) stu
      else if jsFieldNo k.1 = 4 ∧ k.1 % 8 = 0 then
        let r := readVarint u8 k.2
        parseStopTimeUpdateLoopF utf8 fuel u8 e r.2 { stu with stop_sequence := some r.1 }
      else
        parseStopTimeUpdateLoopF utf8 fuel u8 e (skipField u8 k.2 (k.1 % 8)) stu
    else stu

def parseStopTimeUpdate (utf8 : List Nat → String) (u8 : List Nat) (start e : Nat) :
    StopTimeUpdate :=
  parseStopTimeUpdateLoopF utf8 (e - start) u8 e start ⟨none, none, ⟨none, none⟩, ⟨none, none⟩⟩

/-- `parseTripUpdate(u8, start, end)`: field 1 is the `TripDescriptor`,
field 2 appends one `StopTimeUpdate` per occurrence. -/
structure TripUpdateMsg where
  trip : TripDescriptor
  stop_time_update : List StopTimeUpdate
deriving DecidableEq, Repr

def parseTripUpdateLoopF (utf8 : List Nat → String) :
    Nat → List Nat → Nat → Nat → TripUpdateMsg → TripUpdateMsg
  | 0, _, _, _, tu => tu
  | fuel + 1, u8, e, pos, tu =>
    if pos < e then
      let k := readVarint u8 pos
      if k.1 % 8 = 2 then
        let r := readVarint u8 k.2
        if jsFieldNo k.1 = 1 then
          parseTripUpdateLoopF utf8 fuel u8 e (r.2 + r.1)
            { tu with trip := parseTripDescriptor utf8 u8 r.2 (r.2 + r.1) }
        else if jsFieldNo k.1 = 2 then
          parseTripUpdateLoopF utf8 fuel u8 e (r.2 + r.1)
            { tu with stop_time_update :=
                tu.stop_time_update ++ [parseStopTimeUpdate utf8 u8 r.2 (r.2 + r.1)] }
        else
          parseTripUpdateLoopF utf8 fuel u8 e (r.2 + r.1) tu
      else
        parseTripUpdateLoopF utf8 fuel u8 e (skipField u8 k.2 (k.1 % 8)) tu
    else tu

def parseTripUpdate (utf8 : List Nat → String) (u8 : List Nat) (start e : Nat) :
    TripUpdateMsg :=
  parseTripUpdateLoopF utf8 (e - start) u8 e start ⟨⟨none, none⟩, []⟩

/-- `parsePosition(u8, start, end)`: the four recognized fixed32 coordinate
fields keep the raw little-endian 32-bit payload; reaching any of them throws
(see the section comment). -/
structure PositionMsg where
  latitude : Option Nat
  longitude : Option Nat
  bearing : Option Nat
  speed : Option Nat
deriving DecidableEq, Repr

/-- Little-endian 32-bit read of `u8[pos..pos+4)` (raw bit pattern of the
float payload). -/
def readFixed32 (u8 : List Nat) (pos : Nat) : Nat :=
  (u8.getD pos 0) % 256 + (u8.getD (pos + 1) 0) % 256 * 256 +
    (u8.getD (pos + 2) 0) % 256 * 65536 + (u8.getD (pos + 3) 0) % 256 * 16777216

/-- The float-read of `parsePosition` at absolute cursor `pos`:
`RangeError` unless the `DataView` window fits the buffer (`pos + 4 ≤ len`)
and the read offset fits the window (`pos = 0`). -/
def jsGetFloat32 (u8 : List Nat) (pos : Nat) : Except JsError Nat :=
  if pos + 4 ≤ u8.length then
    if pos = 0 then .ok (readFixed32 u8 pos) else .error .rangeError
  else .error .rangeError

def parsePositionLoopF : Nat → List Nat → Nat → Nat → PositionMsg → Except JsError PositionMsg
  | 0, _, _, _, p => .ok p
  | fuel + 1, u8, e, pos, p =>
    if pos < e then
      let k := readVarint u8 pos
      if jsFieldNo k.1 = 1 ∧ k.1 % 8 = 5 then
        match jsGetFloat32 u8 k.2 with
        | .error err => .error err
        | .ok v => parsePositionLoopF fuel u8 e (k.2 + 4) { p with latitude := some v }
      else if jsFieldNo k.1 = 2 ∧ k.1 % 8 = 5 then
        match jsGetFloat32 u8 k.2 with
        | .error err => .error err
        | .ok v => parsePositionLoopF fuel u8 e (k.2 + 4) { p with longitude := some v }
      else if jsFieldNo k.1 = 3 ∧ k.1 % 8 = 5 then
        match jsGetFloat32 u8 k.2 with
        | .error err => .error err
        | .ok v => parsePositionLoopF fuel u8 e (k.2 + 4) { p with bearing := some v }
      else if jsFieldNo k.1 = 4 ∧ k.1 % 8 = 5 then
        match jsGetFloat32 u8 k.2 with
        | .error err => .error err
        | .ok v => parsePositionLoopF fuel u8 e (k.2 + 4) { p with speed := some v }
      else
        parsePositionLoopF fuel u8 e (skipField u8 k.2 (k.1 % 8)) p
    else .ok p

def parsePosition (u8 : List Nat) (start e : Nat) : Except JsError PositionMsg :=
  parsePositionLoopF (e - start) u8 e start ⟨none, none, none, none⟩

/-- `parseVehiclePosition(u8, start, end)`: fields 1/2/3 are the trip,
vehicle and position submessages, field 4 is the timestamp varint. -/
structure VehiclePositionMsg where
  trip : TripDescriptor
  vehicle : VehicleDescriptor
  position : PositionMsg
  timestamp : Option Nat
deriving DecidableEq, Repr

def parseVehiclePositionLoopF (utf8 : List Nat → String) :
    Nat → List Nat → Nat → Nat → VehiclePositionMsg → Except JsError VehiclePositionMsg
  | 0, _, _, _, vp => .ok vp
  | fuel + 1, u8, e, pos, vp =>
    if pos < e then
      let k := readVarint u8 pos
      if k.1 % 8 = 2 then
        let r := readVarint u8 k.2
        if jsFieldNo k.1 = 1 then
          parseVehiclePositionLoopF utf8 fuel u8 e (r.2 + r.1)
            { vp with trip := parseTripDescriptor utf8 u8 r.2 (r.2 + r.1) }
        else if jsFieldNo k.1 = 2 then
          parseVehiclePositionLoopF utf8 fuel u8 e (r.2 + r.1)
            { vp with vehicle := parseVehicleDescriptor utf8 u8 r.2 (r.2 + r.1) }
        else if jsFieldNo k.1 = 3 then
          match parsePosition u8 r.2 (r.2 + r.1) with
          | .error err => .error err
          | .ok pm =>
            parseVehiclePositionLoopF utf8 fuel u8 e (r.2 + r.1) { vp with position := pm }
        else
          parseVehiclePositionLoopF utf8 fuel u8 e (r.2 + r.1) vp
      else if jsFieldNo k.1 = 4 ∧ k.1 % 8 = 0 then
        let r := readVarint u8 k.2
        parseVehiclePositionLoopF utf8 fuel u8 e r.2 { vp with timestamp := some r.1 }
      else
        parseVehiclePositionLoopF utf8 fuel u8 e (skipField u8 k.2 (k.1 % 8)) vp
    else .ok vp

def parseVehiclePosition (utf8 : List Nat → String) (u8 : List Nat) (start e : Nat) :
    Except JsError VehiclePositionMsg :=
  parseVehiclePositionLoopF utf8 (e - start) u8 e start
    ⟨⟨none, none⟩, ⟨none⟩, ⟨none, none, none, none⟩, none⟩

/-- `parseEntity(u8, start, end)`: field 1 is the entity id, field 3 the
trip update and field 4 the vehicle position. -/
structure EntityMsg where
  id : Option String
  trip_update : Option TripUpdateMsg
  vehicle : Option VehiclePositionMsg
deriving DecidableEq, Repr

def parseEntityLoopF (utf8 : List Nat → String) :
    Nat → List Nat → Nat → Nat → EntityMsg → Except JsError EntityMsg
  | 0, _, _, _, ent => .ok ent
  | fuel + 1, u8, e, pos, ent =>
    if pos < e then
      let k := readVarint u8 pos
      if k.1 % 8 = 2 then
        let r := readVarint u8 k.2
        if jsFieldNo k.1 = 1 then
          parseEntityLoopF utf8 fuel u8 e (r.2 + r.1)
            { ent with id := some (utf8 (sliceBytes u8 r.2 (r.2 + r.1))) }
        else if jsFieldNo k.1 = 3 then
          parseEntityLoopF utf8 fuel u8 e (r.2 + r.1)
            { ent with trip_update := some (parseTripUpdate utf8 u8 r.2 (r.2 + r.1)) }
        else if jsFieldNo k.1 = 4 then
          match parseVehiclePosition utf8 u8 r.2 (r.2 + r.1) with
          | .error err => .error err
          | .ok vp => parseEntityLoopF utf8 fuel u8 e (r.2 + r.1) { ent with vehicle := some vp }
        else
          parseEntityLoopF utf8 fuel u8 e (r.2 + r.1) ent
      else
        parseEntityLoopF utf8 fuel u8 e (skipField u8 k.2 (k.1 % 8)) ent
    else .ok ent

def parseEntity (utf8 : List Nat → String) (u8 : List Nat) (start e : Nat) :
    Except JsError EntityMsg :=
  parseEntityLoopF utf8 (e - start) u8 e start ⟨none, none, none⟩

/-- `parseFeedMessage(ab)`: field 1 sets the header timestamp (unconditionally,
unlike the bronze worker), field 2 appends one parsed entity. -/
structure FeedMessage where
  headerTimestamp : Option Nat
  entity : List EntityMsg
deriving DecidableEq, Repr

def parseFeedMessageLoopF (utf8 : List Nat → String) :
    Nat → List Nat → Nat → FeedMessage → Except JsError FeedMessage
  | 0, _, _, feed => .ok feed
  | fuel + 1, u8, pos, feed =>
    if pos < u8.length then
      let k := readVarint u8 pos
      if k.1 % 8 = 2 then
        let r := readVarint u8 k.2
        if jsFieldNo k.1 = 1 then
          parseFeedMessageLoopF utf8 fuel u8 (r.2 + r.1)
            { feed with headerTimestamp := parseHeaderTimestamp u8 r.2 (r.2 + r.1) }
        else if jsFieldNo k.1 = 2 then
          match parseEntity utf8 u8 r.2 (r.2 + r.1) with
          | .error err => .error err
          | .ok ent =>
            parseFeedMessageLoopF utf8 fuel u8 (r.2 + r.1)
              { feed with entity := feed.entity ++ [ent] }
        else
          parseFeedMessageLoopF utf8 fuel u8 (r.2 + r.1) feed
      else
        parseFeedMessageLoopF utf8 fuel u8 (skipField u8 k.2 (k.1 % 8)) feed
    else .ok feed

def parseFeedMessage (utf8 : List Nat → String) (u8 : List Nat) : Except JsError FeedMessage :=
  parseFeedMessageLoopF utf8 u8.length u8 0 ⟨none, []⟩

/-! ## Hot-path selection and the current-trip-updates handler (gold worker)

Absolute instants are modelled in milliseconds as `Int` (the value of a JS
`Date`).  The R2 listing (`env.R2_BRONZE.list`) and blob read are passed as
functions; `toLocalM` is the Montreal-local rendering of an instant used by
`fmtYMD_Montreal`. -/

/-- Stable insertion into a sorted list: the new element goes in front of
the first element it satisfies the comparator against. -/
def insertBy {α : Type} (le : α → α → Bool) (x : α) : List α → List α
  | [] => [x]
  | y :: ys => if le x y then x :: y :: ys else y :: insertBy le x ys

/-- A stable sort, modelling JS `Array.prototype.sort` (whose algorithm is
implementation-defined but required to be stable): earlier elements are
inserted in front of later comparator-equal ones. -/
def sortBy {α : Type} (le : α → α → Bool) : List α → List α
  | [] => []
  | x :: xs => insertBy le x (sortBy le xs)

theorem mem_insertBy {α : Type} (le : α → α → Bool) (x a : α) (l : List α) :
    a ∈ insertBy le x l ↔ a = x ∨ a ∈ l := by
  induction l with
  | nil => simp [insertBy]
  | cons y ys ih =>
    simp only [insertBy]
    split
    · simp
    · simp [ih]
      tauto

theorem mem_sortBy {α : Type} (le : α → α → Bool) (a : α) (l : List α) :
    a ∈ sortBy le l ↔ a ∈ l := by
  induction l with
  | nil => simp [sortBy]
  | cons x xs ih =>
    simp only [sortBy, mem_insertBy, ih, List.mem_cons]

theorem pairwise_insertBy {α : Type} (le : α → α → Bool)
    (htrans : ∀ a b c, le a b = true → le b c = true → le a c = true)
    (htotal : ∀ a b, le a b = true ∨ le b a = true)
    (x : α) (l : List α) (hl : l.Pairwise (fun a b => le a b = true)) :
    (insertBy le x l).Pairwise (fun a b => le a b = true) := by
  induction l with
  | nil => simp [insertBy]
  | cons y ys ih =>
    rw [List.pairwise_cons] at hl
    simp only [insertBy]
    split
    · rename_i hxy
      rw [List.pairwise_cons]
      refine ⟨?_, List.pairwise_cons.mpr hl⟩
      intro b hb
      rcases List.mem_cons.mp hb with hb | hb
      · exact hb ▸ hxy
      · exact htrans x y b hxy (hl.1 b hb)
    · rename_i hxy
      rw [List.pairwise_cons]
      refine ⟨?_, ih hl.2⟩
      intro b hb
      rcases (mem_insertBy le x b ys).mp hb with hb | hb
      · subst hb
        rcases htotal b y with h | h
        · exact absurd h hxy
        · exact h
      · exact hl.1 b hb

theorem pairwise_sortBy {α : Type} (le : α → α → Bool)
    (htrans : ∀ a b c, le a b = true → le b c = true → le a c = true)
    (htotal : ∀ a b, le a b = true ∨ le b a = true)
    (l : List α) : (sortBy le l).Pairwise (fun a b => le a b = true) := by
  induction l with
  | nil => simp [sortBy]
  | cons x xs ih => exact pairwise_insertBy le htrans htotal x (sortBy le xs) ih

/-- `getHoursAgo(hours)`: `d.setHours(d.getHours() - hours)` moves the clock
back by `hours` wall-clock hours; modelled as a fixed offset on the absolute
clock (a DST transition inside the window is not modelled). -/
def getHoursAgo (now : Int) (hours : Nat) : Int :=
  now - hours * 3600000

/-- One object of an R2 listing: key and (possibly missing) upload instant.
An R2 `uploaded` value is a `Date` object, truthy whenever present. -/
structure R2Obj where
  key : String
  uploaded : Option Int
deriving DecidableEq, Repr

/-- One entry of the list `listHotRTFiles` builds. -/
structure HotFile where
  key : String
  uploaded : Int
deriving DecidableEq, Repr

/-- `listHotRTFiles(env, provider, feedKind, hoursBack)`: list the R2 objects
under the `dt=` prefixes of the threshold date and of today, keep those whose
upload instant (defaulting to now when missing) is `>= threshold`, and sort
by upload instant descending (the JS comparator is
`(a, b) => b.uploaded - a.uploaded`). -/
def listHotRTFiles (toLocalM : Int → LocalTime) (r2List : String → List R2Obj)
    (now : Int) (provider feedKind : String) (hoursBack : Nat) : List HotFile :=
  let threshold := getHoursAgo now hoursBack
  let dates := [fmtYMD (toLocalM threshold), fmtYMD (toLocalM now)]
  let files := dates.flatMap (fun date =>
    (r2List ("gtfs-rt/" ++ provider ++ "/" ++ feedKind ++ "/dt=" ++ date ++ "/")).filterMap
      (fun o =>
        let timestamp := o.uploaded.getD now
        if threshold ≤ timestamp then some (⟨o.key, timestamp⟩ : HotFile) else none))
  sortBy (fun a b => decide (b.uploaded ≤ a.uploaded)) files

/-- JS truthiness of an optional query-string value (`null` and the empty
string are falsy). -/
def jsTruthy : Option String → Bool
  | some v => v ≠ ""
  | none => false

/-- `x || dflt` for an optional query-string value. -/
def jsOr (s : Option String) (dflt : String) : String :=
  match s with
  | some v => if v = "" then dflt else v
  | none => dflt

/-- One element of the `tripUpdates` array built by
`handleCurrentTripUpdates`. -/
structure TripRow where
  trip_id : Option String
  route_id : Option String
  stop_id : Option String
  stop_sequence : Option Nat
  arrival_delay : Option Nat
  departure_delay : Option Nat
  arrival_time : Option Nat
  departure_time : Option Nat
deriving DecidableEq, Repr

/-- Outcome of `handleCurrentTripUpdates`: the empty-window message, the
500 on a failed blob read, a thrown parse error (turned into a 500 by the
router's catch), or the JSON payload. -/
inductive CurrentTripsResult where
  | noData
  | readError
  | parseError (e : JsError)
  | ok (rows : List TripRow) (feedTs : Option Nat)
deriving DecidableEq, Repr

/-- `handleCurrentTripUpdates(req, env, url)`: take the hot file list, read
the single latest file (`files[0]`), parse it once, and filter its entities
in memory by the optional `route_id` / `stop_id` query parameters. -/
def handleCurrentTripUpdates (utf8 : List Nat → String) (toLocalM : Int → LocalTime)
    (r2List : String → List R2Obj) (fetchBlob : String → Option (List Nat))
    (now : Int) (provider routeId stopId : Option String) : CurrentTripsResult :=
  let prov := jsOr provider "stm"
  match listHotRTFiles toLocalM r2List now prov "gtfsrt_trip_updates" 24 with
  | [] => .noData
  | latest :: _ =>
    match fetchBlob latest.key with
    | none => .readError
    | some ab =>
      match parseFeedMessage utf8 ab with
      | .error err => .parseError err
      | .ok feed =>
        let rows := feed.entity.flatMap (fun ent =>
          match ent.trip_update with
          | none => []
          | some tu =>
            if jsTruthy routeId ∧ tu.trip.route_id ≠ routeId then []
            else
              tu.stop_time_update.filterMap (fun stu =>
                if jsTruthy stopId ∧ stu.stop_id ≠ stopId then none
                else some (⟨tu.trip.trip_id, tu.trip.route_id, stu.stop_id, stu.stop_sequence,
                  stu.arrival.delay, stu.departure.delay,
                  stu.arrival.time, stu.departure.time⟩ : TripRow)))
        .ok rows feed.headerTimestamp

/-! ## Historical queries (gold worker)

`queryD1Historical` selects from one of the four aggregate tables of
`migrations/002_create_rt_aggregation_tables.sql` by equality on
`provider_key` and `date` (plus optional `hour`, `route_id`, `stop_id`
clauses), ordered by `date` (and `hour` for hourly queries); any D1 error —
including the undefined SQL built for an unrecognized `feed_kind` — is
caught and surfaced as `null`. -/

/-- One row of an aggregate table, restricted to the columns the query layer
inspects (`SELECT *` also carries the statistic columns, which the routing
logic never reads; `hour` is `none` on the daily tables). -/
structure AggRow where
  provider_key : String
  date : String
  hour : Option Int
  route_id : Option String
  stop_id : Option String
  vehicle_id : Option String
  trip_id : Option String
deriving DecidableEq, Repr

/-- The four aggregate tables of migration 002. -/
structure D1 where
  rt_delays_hourly : List AggRow
  rt_delays_daily : List AggRow
  rt_positions_hourly : List AggRow
  rt_positions_daily : List AggRow
deriving DecidableEq, Repr

/-- SQLite `ORDER BY hour` comparison with `NULL` first. -/
def hourLe : Option Int → Option Int → Bool
  | none, _ => true
  | some _, none => false
  | some a, some b => decide (a ≤ b)

/-- `ORDER BY date` (and `, hour` when hourly): dates are `YYYY-MM-DD`
strings, compared lexicographically as SQLite compares TEXT. -/
def orderRows (hourly : Bool) (rows : List AggRow) : List AggRow :=
  sortBy (fun a b =>
    if a.date = b.date then (if hourly then hourLe a.hour b.hour else true)
    else decide (a.date ≤ b.date)) rows

/-- `queryD1Historical(env, provider, feedKind, date, aggregation, hour,
routeId, stopId)`; returns `none` for the caught-error path. -/
def queryD1Historical (db : D1) (provider feedKind date aggregation : String)
    (hour : Option Int) (routeId stopId : Option String) : Option (List AggRow) :=
  if feedKind = "gtfsrt_trip_updates" then
    let base :=
      if aggregation = "hourly" then
        db.rt_delays_hourly.filter (fun r =>
          decide (r.provider_key = provider ∧ r.date = date) &&
            (match hour with | some h => decide (r.hour = some h) | none => true))
      else
        db.rt_delays_daily.filter (fun r => decide (r.provider_key = provider ∧ r.date = date))
    let base := if jsTruthy routeId then base.filter (fun r => decide (r.route_id = routeId)) else base
    let base := if jsTruthy stopId then base.filter (fun r => decide (r.stop_id = stopId)) else base
    some (orderRows (aggregation = "hourly") base)
  else if feedKind = "gtfsrt_vehicle_positions" then
    let base :=
      if aggregation = "hourly" then
        db.rt_positions_hourly.filter (fun r =>
          decide (r.provider_key = provider ∧ r.date = date) &&
            (match hour with | some h => decide (r.hour = some h) | none => true))
      else
        db.rt_positions_daily.filter (fun r => decide (r.provider_key = provider ∧ r.date = date))
    let base := if jsTruthy routeId then base.filter (fun r => decide (r.route_id = routeId)) else base
    some (orderRows (aggregation = "hourly") base)
  else
    -- `tableName`/`sql` stay undefined, `env.DB.prepare(sql)` throws, the
    -- catch block returns null.
    none

/-- `parseInt` on a query-string value, modelled for decimal numerals. -/
def jsParseInt (s : String) : Int :=
  (s.toInt?).getD 0

/-- Outcome of `handleHistorical`: 400 when `date` is missing, the
404 `'Historical data not found'` error, or the JSON payload. -/
inductive HistResult where
  | badRequest
  | notFound
  | ok (aggregation : String) (rows : List AggRow)
deriving DecidableEq, Repr

/-- `handleHistorical(req, env, url)`: defaults `provider`/`feed_kind`,
derives the aggregation grain from the presence of `hour`, requires `date`,
queries D1, and returns 404 whenever the result is `null` **or** an empty
row set (`if (!data || data.length === 0)`). -/
def handleHistorical (db : D1) (provider feedKind date hour routeId stopId : Option String) :
    HistResult :=
  let prov := jsOr provider "stm"
  let fk := jsOr feedKind "gtfsrt_trip_updates"
  let aggregation := if jsTruthy hour then "hourly" else "daily"
  if jsTruthy date then
    let hourVal : Option Int :=
      if jsTruthy hour then some (jsParseInt (hour.getD "")) else none
    match queryD1Historical db prov fk (date.getD "") aggregation hourVal routeId stopId with
    | none => .notFound
    | some [] => .notFound
    | some rows => .ok aggregation rows
  else .badRequest

/-! ## The Aggregation Engine (spec-modelled)

Modelled from the spec: the Aggregation Engine itself
(`silver/etl/rt-historical-to-silver.py`, referenced by `silver/README.md`
and by the scheduled workflow) is not under `src/`; only its output tables
(`migrations/002_create_rt_aggregation_tables.sql`) and its callers are.
Following the spec's §4.4: for each partition, decoded trip-delay entities
are accumulated into running statistics keyed by (hour, route, stop, trip)
for the hourly store and (route, stop, trip) for the daily store — the
primary keys of `rt_delays_hourly` / `rt_delays_daily` restricted to one
`(provider_key, date)` partition — computing count, true mean, min and max
(entities missing a numeric field are excluded from that statistic only),
and one row per key is upserted by primary key into each store.  REAL
columns are modelled as exact rationals. -/

/-- One decoded trip-delay observation inside a partition. -/
structure DelayEntity where
  hour : Nat
  route_id : Option String
  stop_id : Option String
  trip_id : Option String
  arrival_delay : Option Int
  departure_delay : Option Int
deriving DecidableEq, Repr

/-- One `rt_delays_hourly` / `rt_delays_daily` row of a single
`(provider_key, date)` partition (`hour` is `none` for the daily store). -/
structure DelayAggRow where
  hour : Option Nat
  route_id : Option String
  stop_id : Option String
  trip_id : Option String
  avg_arrival_delay : Option ℚ
  max_arrival_delay : Option Int
  min_arrival_delay : Option Int
  avg_departure_delay : Option ℚ
  max_departure_delay : Option Int
  min_departure_delay : Option Int
  trip_count : Nat
deriving DecidableEq, Repr

/-- The primary key of an aggregate row (the migration's PK restricted to
one partition). -/
def pkOf (r : DelayAggRow) : Option Nat × Option String × Option String × Option String :=
  (r.hour, r.route_id, r.stop_id, r.trip_id)

/-- True mean over the present values (`none` when no value contributed). -/
def statAvg (vs : List Int) : Option ℚ :=
  if vs.length = 0 then none else some ((vs.sum : ℚ) / vs.length)

/-- Build the aggregate row of one key from its matching entities. -/
def buildRow (k : Option Nat × Option String × Option String × Option String)
    (matching : List DelayEntity) : DelayAggRow :=
  let arr := matching.filterMap (fun e => e.arrival_delay)
  let dep := matching.filterMap (fun e => e.departure_delay)
  { hour := k.1, route_id := k.2.1, stop_id := k.2.2.1, trip_id := k.2.2.2,
    avg_arrival_delay := statAvg arr,
    max_arrival_delay := arr.max?, min_arrival_delay := arr.min?,
    avg_departure_delay := statAvg dep,
    max_departure_delay := dep.max?, min_departure_delay := dep.min?,
    trip_count := matching.length }

/-- The hourly grouping key of an entity. -/
def hourlyKeyOf (e : DelayEntity) : Option Nat × Option String × Option String × Option String :=
  (some e.hour, e.route_id, e.stop_id, e.trip_id)

/-- The daily grouping key of an entity. -/
def dailyKeyOf (e : DelayEntity) : Option Nat × Option String × Option String × Option String :=
  (none, e.route_id, e.stop_id, e.trip_id)

/-- Group a partition's entities by key (first-appearance order) and build
one aggregate row per key. -/
def aggregateRows
    (keyOf : DelayEntity → Option Nat × Option String × Option String × Option String)
    (es : List DelayEntity) : List DelayAggRow :=
  ((es.map keyOf).dedup).map (fun k => buildRow k (es.filter (fun e => decide (keyOf e = k))))

/-- Upsert one row by primary key: replace the existing row in place, or
append when the key is new. -/
def upsert (row : DelayAggRow) (t : List DelayAggRow) : List DelayAggRow :=
  if t.any (fun r => decide (pkOf r = pkOf row)) then
    t.map (fun r => if pkOf r = pkOf row then row else r)
  else t ++ [row]

/-- Upsert a batch of rows in order. -/
def upsertAll (rows : List DelayAggRow) (t : List DelayAggRow) : List DelayAggRow :=
  rows.foldl (fun acc row => upsert row acc) t

/-- One aggregation run over a partition's (unchanged) entity set: compute
the hourly and daily rows and upsert them into the two stores. -/
def runAggregate (es : List DelayEntity) (tables : List DelayAggRow × List DelayAggRow) :
    List DelayAggRow × List DelayAggRow :=
  (upsertAll (aggregateRows hourlyKeyOf es) tables.1,
   upsertAll (aggregateRows dailyKeyOf es) tables.2)

/-- The PRIMARY KEY constraint of migration 002: a store holds at most one
row per key. -/
def pkNodup (t : List DelayAggRow) : Prop :=
  (t.map pkOf).Nodup

/-! ## A wire-format encoder (for stating decoder correctness)

The envelope grammar of the spec's §4.1: a valid stream is a concatenation
of tagged fields, each a base-128 varint key `fieldNo * 8 + wireType`
followed by the payload its wire type dictates.  Protobuf field numbers are
at most `2^29 - 1`, so a valid key always fits in 32 bits. -/

/-- Little-endian base-128 encoding with continuation bits. -/
def encodeVarint (n : Nat) : List Nat :=
  if h : n < 128 then [n] else (n % 128 + 128) :: encodeVarint (n / 128)
termination_by n
decreasing_by
  exact Nat.div_lt_self (by omega) (by norm_num)

/-- One top-level field of a valid stream, by wire type. -/
inductive PField where
  | varintF (fieldNo : Nat) (v : Nat)
  | fixed64F (fieldNo : Nat) (payload : List Nat)
  | lenF (fieldNo : Nat) (payload : List Nat)
  | fixed32F (fieldNo : Nat) (payload : List Nat)
deriving DecidableEq, Repr

/-- Encode one field: key varint, then the payload (with its length varint
for the length-delimited wire type). -/
def encodeField : PField → List Nat
  | .varintF f v => encodeVarint (f * 8 + 0) ++ encodeVarint v
  | .fixed64F f b => encodeVarint (f * 8 + 1) ++ b
  | .lenF f p => encodeVarint (f * 8 + 2) ++ encodeVarint p.length ++ p
  | .fixed32F f b => encodeVarint (f * 8 + 5) ++ b

/-- Encode a whole top-level stream. -/
def encodeFields (fs : List PField) : List Nat :=
  fs.flatMap encodeField

/-- Well-formedness of one field: a protobuf-legal field number and a
payload of the length its wire type declares, made of bytes. -/
def FieldValid : PField → Prop
  | .varintF f _ => f ≤ 2 ^ 29 - 1
  | .fixed64F f b => f ≤ 2 ^ 29 - 1 ∧ b.length = 8 ∧ ∀ x ∈ b, x < 256
  | .lenF f p => f ≤ 2 ^ 29 - 1 ∧ ∀ x ∈ p, x < 256
  | .fixed32F f b => f ≤ 2 ^ 29 - 1 ∧ b.length = 4 ∧ ∀ x ∈ b, x < 256

instance : DecidablePred FieldValid := by
  intro f; cases f <;> simp only [FieldValid] <;> infer_instance

/-- A top-level field is an entity iff it is length-delimited and tagged
with field number 2. -/
def isEntityField : PField → Bool
  | .lenF 2 _ => true
  | _ => false

/-- The number of entity fields of a stream. -/
def countEntities (fs : List PField) : Nat :=
  (fs.filter isEntityField).length

/-! ## Shared lemmas about the readers -/

/-- Once the cursor has passed the end, the top-level loop exits with its
current state whatever fuel remains. -/
theorem parseFeedMetaLoopF_exit (fuel : Nat) (u8 : List Nat) (pos ec : Nat) (ts : Option Nat)
    (h : ¬ pos < u8.length) : parseFeedMetaLoopF fuel u8 pos ec ts = (ec, ts) := by
  cases fuel with
  | zero => rfl
  | succ n => simp [parseFeedMetaLoopF, h]

/-- Extra fuel beyond the remaining-byte budget does not change the result
of the top-level loop: the loop converges within `u8.length - pos`
iterations on every input. -/
theorem parseFeedMetaLoopF_add (u8 : List Nat) :
    ∀ m k pos ec ts, u8.length - pos ≤ m →
      parseFeedMetaLoopF (m + k) u8 pos ec ts = parseFeedMetaLoopF m u8 pos ec ts := by
  intro m
  induction m with
  | zero =>
    intro k pos ec ts hm
    have h : ¬ pos < u8.length := by omega
    rw [parseFeedMetaLoopF_exit _ _ _ _ _ h, parseFeedMetaLoopF_exit _ _ _ _ _ h]
  | succ n ih =>
    intro k pos ec ts hm
    by_cases h : pos < u8.length
    · have hk : (n + 1) + k = (n + k) + 1 := by omega
      rw [hk]
      simp only [parseFeedMetaLoopF, h, if_true]
      have h1 := readVarint_next_gt u8 pos
      have h2 := readVarint_next_gt u8 (readVarint u8 pos).2
      have h3 := skipField_ge u8 (readVarint u8 pos).2 ((readVarint u8 pos).1 % 8)
      split
      · split
        · exact ih k _ _ _ (by omega)
        · split
          · exact ih k _ _ _ (by omega)
          · exact ih k _ _ _ (by omega)
      · exact ih k _ _ _ (by omega)
    · rw [parseFeedMetaLoopF_exit _ _ _ _ _ h, parseFeedMetaLoopF_exit _ _ _ _ _ h]

/-- C10: the decode terminates on every finite input byte buffer.  Every
varint read strictly advances the cursor (even when its continuation bits
run past the end of the buffer) and every skip is non-decreasing, so the
top-level parse loop makes forward progress on every iteration; consequently
its result is already fixed after at most `u8.length - pos` iterations —
granting the loop any extra budget `k` changes nothing, including when a
length-prefixed field declares a length pointing past the end of the buffer
— and `parseFeedMeta` returns in finitely many steps on any bytes. -/
theorem parseFeedMeta_terminates (u8 : List Nat) (pos ec k : Nat) (ts : Option Nat) :
    pos < (readVarint u8 pos).2 ∧
    pos ≤ skipField u8 pos ((readVarint u8 pos).1 % 8) ∧
    parseFeedMetaLoopF (u8.length - pos + k) u8 pos ec ts =
      parseFeedMetaLoopF (u8.length - pos) u8 pos ec ts ∧
    parseFeedMeta u8 = parseFeedMetaLoopF (u8.length + k) u8 0 0 none := by
  refine ⟨readVarint_next_gt u8 pos, skipField_ge u8 pos _, ?_, ?_⟩
  · exact parseFeedMetaLoopF_add u8 _ k pos ec ts (Nat.le_refl _)
  · have := parseFeedMetaLoopF_add u8 u8.length k 0 0 none (by omega)
    rw [parseFeedMeta, this]

/-! ## Varint round-trip and key arithmetic -/

theorem encodeVarint_length_pos (n : Nat) : 0 < (encodeVarint n).length := by
  rw [encodeVarint]
  split <;> simp

/-- Reading an encoded varint consumes exactly its bytes and accumulates its
value at the current shift. -/
theorem readVarintAux_encode (n : Nat) : ∀ (rest : List Nat) (pos shift acc : Nat),
    readVarintAux (encodeVarint n ++ rest) pos shift acc =
      (acc + n * 2 ^ shift, pos + (encodeVarint n).length) := by
  induction n using Nat.strong_induction_on with
  | _ n ih =>
    intro rest pos shift acc
    rw [encodeVarint]
    split
    · rename_i h
      have h256 : n % 256 = n := Nat.mod_eq_of_lt (by omega)
      have h128 : n % 128 = n := Nat.mod_eq_of_lt h
      simp [List.singleton_append, readVarintAux, h256, h128, h]
    · rename_i h
      have hb : n % 128 + 128 < 256 := by omega
      have hb256 : (n % 128 + 128) % 256 = n % 128 + 128 := Nat.mod_eq_of_lt hb
      have hb128 : (n % 128 + 128) % 128 = n % 128 := by omega
      simp only [List.cons_append, readVarintAux, hb256, hb128, List.append_eq]
      rw [if_neg (by omega)]
      rw [ih (n / 128) (Nat.div_lt_self (by omega) (by norm_num)) rest (pos + 1) (shift + 7)
        (acc + n % 128 * 2 ^ shift)]
      have hval : n % 128 * 2 ^ shift + n / 128 * 2 ^ (shift + 7) = n * 2 ^ shift := by
        rw [pow_add]
        calc n % 128 * 2 ^ shift + n / 128 * (2 ^ shift * 2 ^ 7)
            = (n % 128 + 128 * (n / 128)) * 2 ^ shift := by ring
          _ = n * 2 ^ shift := by rw [Nat.mod_add_div n 128]
      refine Prod.ext ?_ ?_
      · simp only []
        omega
      · simp [List.length_cons]
        omega

theorem readVarint_encode (u8 : List Nat) (pos n : Nat) (rest : List Nat)
    (h : u8.drop pos = encodeVarint n ++ rest) :
    readVarint u8 pos = (n, pos + (encodeVarint n).length) := by
  rw [readVarint, h, readVarintAux_encode]
  simp

/-- Peeling an already-consumed chunk off a drop equation. -/
theorem drop_of_drop_append (u8 pre rest : List Nat) (pos : Nat)
    (h : u8.drop pos = pre ++ rest) : u8.drop (pos + pre.length) = rest := by
  have h2 : (u8.drop pos).drop pre.length = rest := by
    rw [h]; exact List.drop_left pre rest
  rw [List.drop_drop] at h2
  exact h2

theorem jsFieldNo_of_lt (key : Nat) (h : key < 2 ^ 31) : jsFieldNo key = (key / 8 : Nat) := by
  unfold jsFieldNo toInt32
  have h32 : key % 2 ^ 32 = key := Nat.mod_eq_of_lt (by omega)
  simp only [h32]
  rw [if_pos (by exact_mod_cast h)]
  rw [Int.fdiv_eq_ediv _ (by norm_num)]
  rw [Int.ofNat_ediv]
  norm_num

theorem jsFieldNo_neg (key : Nat) (h1 : 2 ^ 31 ≤ key) (h2 : key < 2 ^ 32) : jsFieldNo key < 0 := by
  unfold jsFieldNo toInt32
  have h32 : key % 2 ^ 32 = key := Nat.mod_eq_of_lt h2
  simp only [h32]
  rw [if_neg (by omega)]
  rw [Int.fdiv_eq_ediv _ (by norm_num)]
  apply Int.ediv_neg' _ (by norm_num)
  have hc : (key : Int) < 2 ^ 32 := by exact_mod_cast h2
  omega

/-- For a protobuf-legal key and a small positive constant, the JS field
number test agrees with the true field number. -/
theorem jsFieldNo_key_eq_iff (f wt c : Nat) (hf : f ≤ 2 ^ 29 - 1) (hwt : wt < 8)
    (hc : 0 < c) (hc2 : c < 2 ^ 28) :
    (jsFieldNo (f * 8 + wt) = (c : Int)) ↔ f = c := by
  by_cases hsmall : f * 8 + wt < 2 ^ 31
  · rw [jsFieldNo_of_lt _ hsmall]
    have hdiv : (f * 8 + wt) / 8 = f := by omega
    rw [hdiv]
    exact_mod_cast Iff.rfl
  · have hneg := jsFieldNo_neg (f * 8 + wt) (by omega) (by omega)
    constructor
    · intro hEq
      exfalso
      rw [hEq] at hneg
      have : (0 : Int) ≤ (c : Int) := by positivity
      omega
    · intro hfc
      exfalso
      omega

/-! ## C2: the entity count of a valid envelope stream -/

theorem encodeFields_cons (f : PField) (fs : List PField) :
    encodeFields (f :: fs) = encodeField f ++ encodeFields fs := by
  simp [encodeFields]

theorem encodeField_length_pos (f : PField) : 0 < (encodeField f).length := by
  cases f with
  | varintF fno v =>
    simp only [encodeField, List.length_append]
    have := encodeVarint_length_pos (fno * 8 + 0)
    omega
  | fixed64F fno b =>
    simp only [encodeField, List.length_append]
    have := encodeVarint_length_pos (fno * 8 + 1)
    omega
  | lenF fno p =>
    simp only [encodeField, List.length_append]
    have := encodeVarint_length_pos (fno * 8 + 2)
    omega
  | fixed32F fno b =>
    simp only [encodeField, List.length_append]
    have := encodeVarint_length_pos (fno * 8 + 5)
    omega

theorem fields_length_le (fs : List PField) : fs.length ≤ (encodeFields fs).length := by
  induction fs with
  | nil => simp [encodeFields]
  | cons f fs ih =>
    rw [encodeFields_cons]
    have := encodeField_length_pos f
    simp only [List.length_cons, List.length_append]
    omega

theorem countEntities_cons (f : PField) (fs : List PField) :
    countEntities (f :: fs) = (if isEntityField f then 1 else 0) + countEntities fs := by
  simp only [countEntities, List.filter_cons]
  split <;> simp [Nat.add_comm]

/-- The loop invariant behind claim C2: starting anywhere in the buffer with
the remaining bytes being a valid encoded field list, the loop adds exactly
the stream's entity count to the running count (one loop iteration consumes
exactly one field). -/
theorem parseFeedMetaLoopF_encode (fs : List PField) :
    ∀ (fuel : Nat) (u8 : List Nat) (pos ec : Nat) (ts : Option Nat),
      (∀ f ∈ fs, FieldValid f) →
      u8.drop pos = encodeFields fs →
      pos ≤ u8.length →
      fs.length ≤ fuel →
      (parseFeedMetaLoopF fuel u8 pos ec ts).1 = ec + countEntities fs := by
  induction fs with
  | nil =>
    intro fuel u8 pos ec ts hv hdrop hpos hfuel
    have hlen : (List.drop pos u8).length = 0 := by rw [hdrop]; simp [encodeFields]
    rw [List.length_drop] at hlen
    rw [parseFeedMetaLoopF_exit _ _ _ _ _ (by omega)]
    simp [countEntities]
  | cons f fs ih =>
    intro fuel u8 pos ec ts hv hdrop hpos hfuel
    simp only [List.length_cons] at hfuel
    obtain ⟨g, rfl⟩ : ∃ g, fuel = g + 1 := ⟨fuel - 1, by omega⟩
    rw [encodeFields_cons] at hdrop
    have hflen := encodeField_length_pos f
    have hdlen : (List.drop pos u8).length = (encodeField f).length + (encodeFields fs).length := by
      rw [hdrop]; simp
    rw [List.length_drop] at hdlen
    have hposlt : pos < u8.length := by omega
    have hval : FieldValid f := hv f (List.mem_cons_self f fs)
    have hvrest : ∀ x ∈ fs, FieldValid x := fun x hx => hv x (List.mem_cons_of_mem f hx)
    have hrest : u8.drop (pos + (encodeField f).length) = encodeFields fs :=
      drop_of_drop_append u8 (encodeField f) (encodeFields fs) pos hdrop
    have hple : pos + (encodeField f).length ≤ u8.length := by omega
    have hgfs : fs.length ≤ g := by omega
    simp only [parseFeedMetaLoopF, hposlt, if_true]
    cases f with
    | varintF fno v =>
      have hdropA : u8.drop pos =
          encodeVarint (fno * 8 + 0) ++ (encodeVarint v ++ encodeFields fs) := by
        simpa only [encodeField, List.append_assoc] using hdrop
      have hkey := readVarint_encode u8 pos (fno * 8 + 0) _ hdropA
      have hdrop2 := drop_of_drop_append u8 _ _ pos hdropA
      have hv2 := readVarint_encode u8 (pos + (encodeVarint (fno * 8 + 0)).length) v _ hdrop2
      have hskip : skipField u8 (pos + (encodeVarint (fno * 8 + 0)).length) ((fno * 8 + 0) % 8)
          = pos + (encodeField (PField.varintF fno v)).length := by
        have hwt : (fno * 8 + 0) % 8 = 0 := by omega
        rw [hwt]
        unfold skipField
        rw [if_pos rfl]
        simp only [hv2, encodeField, List.length_append]
        omega
      simp only [hkey]
      rw [if_neg (by omega)]
      rw [hskip]
      rw [ih g u8 _ ec ts hvrest hrest hple hgfs]
      rw [countEntities_cons]
      simp [isEntityField]
    | fixed64F fno b =>
      obtain ⟨hfno, hblen, hbytes⟩ := hval
      have hdropA : u8.drop pos = encodeVarint (fno * 8 + 1) ++ (b ++ encodeFields fs) := by
        simpa only [encodeField, List.append_assoc] using hdrop
      have hkey := readVarint_encode u8 pos (fno * 8 + 1) _ hdropA
      have hskip : skipField u8 (pos + (encodeVarint (fno * 8 + 1)).length) ((fno * 8 + 1) % 8)
          = pos + (encodeField (PField.fixed64F fno b)).length := by
        have hwt : (fno * 8 + 1) % 8 = 1 := by omega
        rw [hwt]
        unfold skipField
        rw [if_neg (by omega), if_pos rfl]
        simp only [encodeField, List.length_append]
        omega
      simp only [hkey]
      rw [if_neg (by omega)]
      rw [hskip]
      rw [ih g u8 _ ec ts hvrest hrest hple hgfs]
      rw [countEntities_cons]
      simp [isEntityField]
    | fixed32F fno b =>
      obtain ⟨hfno, hblen, hbytes⟩ := hval
      have hdropA : u8.drop pos = encodeVarint (fno * 8 + 5) ++ (b ++ encodeFields fs) := by
        simpa only [encodeField, List.append_assoc] using hdrop
      have hkey := readVarint_encode u8 pos (fno * 8 + 5) _ hdropA
      have hskip : skipField u8 (pos + (encodeVarint (fno * 8 + 5)).length) ((fno * 8 + 5) % 8)
          = pos + (encodeField (PField.fixed32F fno b)).length := by
        have hwt : (fno * 8 + 5) % 8 = 5 := by omega
        rw [hwt]
        unfold skipField
        rw [if_neg (by omega), if_neg (by omega), if_neg (by omega), if_pos rfl]
        simp only [encodeField, List.length_append]
        omega
      simp only [hkey]
      rw [if_neg (by omega)]
      rw [hskip]
      rw [ih g u8 _ ec ts hvrest hrest hple hgfs]
      rw [countEntities_cons]
      simp [isEntityField]
    | lenF fno p =>
      obtain ⟨hfno, hbytes⟩ := hval
      have hdropA : u8.drop pos = encodeVarint (fno * 8 + 2) ++
          (encodeVarint p.length ++ (p ++ encodeFields fs)) := by
        simpa only [encodeField, List.append_assoc] using hdrop
      have hkey := readVarint_encode u8 pos (fno * 8 + 2) _ hdropA
      have hdrop2 := drop_of_drop_append u8 _ _ pos hdropA
      have hlenread := readVarint_encode u8 (pos + (encodeVarint (fno * 8 + 2)).length) p.length
        _ hdrop2
      have hsub : pos + (encodeVarint (fno * 8 + 2)).length + (encodeVarint p.length).length
          + p.length = pos + (encodeField (PField.lenF fno p)).length := by
        simp only [encodeField, List.length_append]
        omega
      simp only [hkey]
      rw [if_pos (by omega)]
      simp only [hlenread]
      rw [hsub]
      by_cases h1 : jsFieldNo (fno * 8 + 2) = (1 : Int)
      · rw [if_pos h1]
        have hfno1 : fno = 1 := (jsFieldNo_key_eq_iff fno 2 1 hfno (by omega) (by omega)
          (by norm_num)).mp h1
        rw [ih g u8 _ ec _ hvrest hrest hple hgfs]
        rw [countEntities_cons]
        subst hfno1
        simp [isEntityField]
      · rw [if_neg h1]
        by_cases h2 : jsFieldNo (fno * 8 + 2) = (2 : Int)
        · rw [if_pos h2]
          have hfno2 : fno = 2 := (jsFieldNo_key_eq_iff fno 2 2 hfno (by omega) (by omega)
            (by norm_num)).mp h2
          rw [ih g u8 _ (ec + 1) ts hvrest hrest hple hgfs]
          rw [countEntities_cons]
          subst hfno2
          simp [isEntityField]
          omega
        · rw [if_neg h2]
          have hfnoNe2 : fno ≠ 2 := fun hh => h2 ((jsFieldNo_key_eq_iff fno 2 2 hfno (by omega)
            (by omega) (by norm_num)).mpr hh)
          rw [ih g u8 _ ec ts hvrest hrest hple hgfs]
          rw [countEntities_cons]
          have hent : isEntityField (PField.lenF fno p) = false := by
            simp only [isEntityField]
            split
            · rename_i heq
              exfalso
              cases heq
              exact hfnoNe2 rfl
            · rfl
          simp [hent]

/-- C2: for every valid envelope byte stream — the encoding of any list of
well-formed top-level fields, with unknown fields of any field number and
any wire type interleaved among the entities — the decoder's returned entity
count equals the number of top-level length-delimited fields tagged with
field number 2. -/
theorem parseFeedMeta_entity_count (fs : List PField) (hv : ∀ f ∈ fs, FieldValid f) :
    (parseFeedMeta (encodeFields fs)).1 = countEntities fs := by
  rw [parseFeedMeta]
  have h := parseFeedMetaLoopF_encode fs (encodeFields fs).length (encodeFields fs) 0 0 none hv
    (by simp) (by simp) (fields_length_le fs)
  omega

/-- A sample stream: a header, two entities, and unknown fields of every
wire type (including a large field number whose key exceeds 2^31)
interleaved among them. -/
def demoFields : List PField :=
  [PField.lenF 1 [24, 99], PField.varintF 7 300, PField.lenF 2 [10, 0],
   PField.fixed32F 9 [1, 2, 3, 4], PField.lenF 2 [], PField.varintF 2 5,
   PField.fixed64F 3 [8, 7, 6, 5, 4, 3, 2, 1], PField.lenF 536870911 [1, 2]]

theorem parseFeedMeta_entity_count_witness :
    (∀ f ∈ demoFields, FieldValid f) ∧
      (parseFeedMeta (encodeFields demoFields)).1 = countEntities demoFields :=
  ⟨by decide, parseFeedMeta_entity_count demoFields (by decide)⟩

/-! ## C1: malformed input never fails and is stored -/

theorem rowCount_pos_iff (t : List RawRow) (p h : String) :
    (t.any fun r => r.provider_key = p ∧ r.hash_sha256 = h) = true ↔ 1 ≤ rowCount t p h := by
  rw [List.any_eq_true]
  unfold rowCount
  constructor
  · rintro ⟨r, hr, hpr⟩
    have hmem : r ∈ t.filter (fun r => r.provider_key = p ∧ r.hash_sha256 = h) :=
      List.mem_filter.mpr ⟨hr, hpr⟩
    exact List.length_pos.mpr (List.ne_nil_of_mem hmem)
  · intro hlen
    have hne : t.filter (fun r => r.provider_key = p ∧ r.hash_sha256 = h) ≠ [] := by
      intro hnil
      rw [hnil] at hlen
      simp at hlen
    obtain ⟨r, hr⟩ := List.exists_mem_of_ne_nil _ hne
    exact ⟨r, (List.mem_filter.mp hr).1, (List.mem_filter.mp hr).2⟩

/-- C1 counterexample: the one-byte buffer `[0x80]` is truncated in the
middle of a varint (its continuation bit points past the end of the buffer),
yet `parseFeedMeta` returns a normal result instead of failing, and `saveRT`
stores the snapshot: the blob is written and the metadata row is inserted. -/
theorem truncated_varint_is_stored :
    parseFeedMeta [128] = (0, none) ∧
    (saveRT (fun _ => "h0") (fun _ => ⟨2025, 1, 2, 3, 4, 5⟩) ⟨2025, 1, 2, 3, 4, 5⟩
        Store.empty "stm" 7 "gtfsrt_trip_updates" [128]).2 =
      SaveResult.saved
        "gtfs-rt/stm/gtfsrt_trip_updates/dt=2025-01-02/gtfsrt_trip_updates_2025-01-02T03-04-05.pb" ∧
    (saveRT (fun _ => "h0") (fun _ => ⟨2025, 1, 2, 3, 4, 5⟩) ⟨2025, 1, 2, 3, 4, 5⟩
        Store.empty "stm" 7 "gtfsrt_trip_updates" [128]).1.rt_trip_updates_raw =
      [⟨"stm", 7, none, "h0", 0⟩] ∧
    (saveRT (fun _ => "h0") (fun _ => ⟨2025, 1, 2, 3, 4, 5⟩) ⟨2025, 1, 2, 3, 4, 5⟩
        Store.empty "stm" 7 "gtfsrt_trip_updates" [128]).1.r2.length = 1 := by
  decide

/-- C1 (amended): the decode path never raises any error — `readVarint`
treats reads past the end of the buffer as a terminating zero byte, so
`parseFeedMeta` consumes every byte buffer, truncated or not — and the only
condition under which `saveRT` declines to store a snapshot is a duplicate
content fingerprint for the same provider in the kind's table; no
`MalformedInput` failure exists in the code. -/
theorem saveRT_skips_iff_duplicate (hash : List Nat → String) (toLocal : Nat → LocalTime)
    (now : LocalTime) (st : Store) (pkey : String) (fid : Nat) (kind : String) (ab : List Nat) :
    (saveRT hash toLocal now st pkey fid kind ab).2 = SaveResult.skipped ↔
      1 ≤ rowCount (tableOf st kind) pkey (hash ab) := by
  simp only [saveRT]
  split
  · rename_i hany
    simp only [true_iff]
    exact (rowCount_pos_iff _ _ _).mp hany
  · rename_i hany
    constructor
    · intro hcontra
      exact absurd hcontra (by simp)
    · intro hge
      exact absurd ((rowCount_pos_iff _ _ _).mpr hge) hany

/-! ## C3: delay fields are read as unsigned varints -/

/-- C3: the GTFS-RT wire encoding of the signed arrival delay `-5` — field 1,
varint `2^64 - 5`, i.e. the bytes `FB FF FF FF FF FF FF FF FF 01` — is
decoded by `parseStopTimeEvent` as the huge positive value `2^64 - 5`
(18446744073709551611), not as `-5`: `readVarint` performs no
two's-complement reinterpretation.  A delay field absent from the bytes does
decode to the explicit absent value, which is distinct from a zero delay. -/
theorem parseStopTimeEvent_negative_delay_unsigned :
    parseStopTimeEvent [8, 251, 255, 255, 255, 255, 255, 255, 255, 255, 1] 0 11 =
      ⟨some 18446744073709551611, none⟩ ∧
    18446744073709551611 = 2 ^ 64 - 5 ∧
    parseStopTimeEvent [] 0 0 = ⟨none, none⟩ ∧
    (none : Option Nat) ≠ some 0 := by
  refine ⟨by decide, by norm_num, by decide, by decide⟩

/-! ## C4: content-fingerprint deduplication -/

theorem rowCount_append (t1 t2 : List RawRow) (p h : String) :
    rowCount (t1 ++ t2) p h = rowCount t1 p h + rowCount t2 p h := by
  unfold rowCount
  rw [List.filter_append, List.length_append]

theorem tableOf_setTable (st : Store) (kind : String) (t : List RawRow) :
    tableOf (setTable st kind t) kind = t := by
  unfold setTable tableOf
  by_cases hk : kind = "gtfsrt_trip_updates" <;> simp [hk]

theorem tableOf_r2 (st : Store) (kind : String) (b : List (String × List Nat)) :
    tableOf { st with r2 := b } kind = tableOf st kind := by
  unfold tableOf
  by_cases hk : kind = "gtfsrt_trip_updates" <;> simp [hk]

/-- C4: fingerprint deduplication keeps `(provider, kind-table, fingerprint)`
unique.  From a state with no row for the fingerprint, one save stores
exactly one row; an immediately repeated submission of byte-identical
content is a pure skip that leaves the store untouched; a save whose
fingerprint already exists for the pair performs no write at all; and the
at-most-one-row-per-(provider, fingerprint) invariant of the kind's table is
preserved. -/
theorem saveRT_skip_of_any (hash : List Nat → String) (toLocal : Nat → LocalTime)
    (now : LocalTime) (st : Store) (pkey : String) (fid : Nat) (kind : String) (ab : List Nat)
    (hany : ((tableOf st kind).any fun r => r.provider_key = pkey ∧ r.hash_sha256 = hash ab)
      = true) :
    saveRT hash toLocal now st pkey fid kind ab = (st, SaveResult.skipped) := by
  simp only [saveRT]
  rw [if_pos hany]

theorem saveRT_dedup_unique (hash : List Nat → String) (toLocal : Nat → LocalTime)
    (now now2 : LocalTime) (st : Store) (pkey : String) (fid fid2 : Nat) (kind : String)
    (ab : List Nat) :
    (rowCount (tableOf st kind) pkey (hash ab) = 0 →
      rowCount (tableOf (saveRT hash toLocal now st pkey fid kind ab).1 kind) pkey (hash ab)
        = 1) ∧
    saveRT hash toLocal now2 (saveRT hash toLocal now st pkey fid kind ab).1 pkey fid2 kind ab
      = ((saveRT hash toLocal now st pkey fid kind ab).1, SaveResult.skipped) ∧
    (1 ≤ rowCount (tableOf st kind) pkey (hash ab) →
      saveRT hash toLocal now st pkey fid kind ab = (st, SaveResult.skipped)) ∧
    ((tableOf st kind).Pairwise
        (fun a b => ¬(a.provider_key = b.provider_key ∧ a.hash_sha256 = b.hash_sha256)) →
      (tableOf (saveRT hash toLocal now st pkey fid kind ab).1 kind).Pairwise
        (fun a b => ¬(a.provider_key = b.provider_key ∧ a.hash_sha256 = b.hash_sha256))) := by
  by_cases hdup :
      ((tableOf st kind).any fun r => r.provider_key = pkey ∧ r.hash_sha256 = hash ab) = true
  · have hs1 := saveRT_skip_of_any hash toLocal now st pkey fid kind ab hdup
    have hs2 := saveRT_skip_of_any hash toLocal now2 st pkey fid2 kind ab hdup
    refine ⟨?_, ?_, fun _ => hs1, ?_⟩
    · intro h0
      exfalso
      have := (rowCount_pos_iff _ _ _).mp hdup
      omega
    · rw [hs1]
      exact hs2
    · rw [hs1]
      exact id
  · have hnone : ∀ r ∈ tableOf st kind, ¬(r.provider_key = pkey ∧ r.hash_sha256 = hash ab) := by
      intro r hr hmatch
      exact hdup (List.any_eq_true.mpr ⟨r, hr, by simpa using hmatch⟩)
    have hstruct : tableOf (saveRT hash toLocal now st pkey fid kind ab).1 kind =
        tableOf st kind ++
          [{ provider_key := pkey, feed_id := fid,
             feed_ts := feedTsLocalOf toLocal (parseFeedMeta ab).2,
             hash_sha256 := hash ab, entity_count := (parseFeedMeta ab).1 }] := by
      simp only [saveRT]
      rw [if_neg hdup]
      simp only []
      rw [tableOf_setTable, tableOf_r2]
    refine ⟨?_, ?_, ?_, ?_⟩
    · intro h0
      rw [hstruct, rowCount_append, h0]
      unfold rowCount
      simp
    · have hmem : ((tableOf (saveRT hash toLocal now st pkey fid kind ab).1 kind).any
          fun r => r.provider_key = pkey ∧ r.hash_sha256 = hash ab) = true := by
        rw [hstruct]
        apply List.any_eq_true.mpr
        refine ⟨_, List.mem_append_right _ (List.mem_singleton_self _), ?_⟩
        simp
      exact saveRT_skip_of_any hash toLocal now2 _ pkey fid2 kind ab hmem
    · intro hge
      exact absurd ((rowCount_pos_iff _ _ _).mpr hge) hdup
    · intro hpw
      rw [hstruct]
      rw [List.pairwise_append]
      refine ⟨hpw, List.pairwise_singleton _ _, ?_⟩
      intro a ha b hb hmatch
      rw [List.mem_singleton] at hb
      subst hb
      exact hnone a ha (by simpa using hmatch)

theorem saveRT_dedup_unique_witness :
    rowCount
        (tableOf (saveRT (fun _ => "h") (fun _ => ⟨2025, 1, 2, 3, 4, 5⟩) ⟨2025, 1, 2, 3, 4, 5⟩
          Store.empty "stm" 1 "gtfsrt_trip_updates" [18, 0]).1 "gtfsrt_trip_updates")
        "stm" "h" = 1 ∧
    saveRT (fun _ => "h") (fun _ => ⟨2025, 1, 2, 3, 4, 5⟩) ⟨2025, 1, 2, 3, 4, 5⟩
        (saveRT (fun _ => "h") (fun _ => ⟨2025, 1, 2, 3, 4, 5⟩) ⟨2025, 1, 2, 3, 4, 5⟩
          Store.empty "stm" 1 "gtfsrt_trip_updates" [18, 0]).1 "stm" 2 "gtfsrt_trip_updates"
        [18, 0]
      = ((saveRT (fun _ => "h") (fun _ => ⟨2025, 1, 2, 3, 4, 5⟩) ⟨2025, 1, 2, 3, 4, 5⟩
          Store.empty "stm" 1 "gtfsrt_trip_updates" [18, 0]).1, SaveResult.skipped) :=
  ⟨(saveRT_dedup_unique (fun _ => "h") (fun _ => ⟨2025, 1, 2, 3, 4, 5⟩) ⟨2025, 1, 2, 3, 4, 5⟩
      ⟨2025, 1, 2, 3, 4, 5⟩ Store.empty "stm" 1 2 "gtfsrt_trip_updates" [18, 0]).1 (by decide),
   (saveRT_dedup_unique (fun _ => "h") (fun _ => ⟨2025, 1, 2, 3, 4, 5⟩) ⟨2025, 1, 2, 3, 4, 5⟩
      ⟨2025, 1, 2, 3, 4, 5⟩ Store.empty "stm" 1 2 "gtfsrt_trip_updates" [18, 0]).2.1⟩

/-! ## C5: the hot-window boundary -/

/-- C5 counterexample: a snapshot uploaded exactly 24 hours before query
time — exactly on the hot-window boundary — is selected by the hot path:
`listHotRTFiles` keeps objects with `timestamp >= threshold`, so the
boundary file appears in the hot list instead of being excluded as cold. -/
theorem hot_boundary_counterexample :
    getHoursAgo 1000000000000 24 = 999913600000 ∧
    listHotRTFiles
        (fun t => if t = 999913600000 then ⟨2025, 1, 1, 0, 0, 0⟩ else ⟨2025, 1, 2, 0, 0, 0⟩)
        (fun p => if p = "gtfs-rt/stm/gtfsrt_trip_updates/dt=2025-01-01/"
          then [⟨"k1", some 999913600000⟩] else [])
        1000000000000 "stm" "gtfsrt_trip_updates" 24
      = [⟨"k1", 999913600000⟩] := by
  decide

/-- C5 (amended): a snapshot whose upload instant is exactly at the
hot-window boundary is treated as **hot**: the hot-path filter keeps every
listed object with `timestamp >= threshold`, equality included, so the
boundary snapshot is part of the hot-path selection. -/
theorem hot_boundary_included (toLocalM : Int → LocalTime) (r2List : String → List R2Obj)
    (now : Int) (provider feedKind k : String) (hoursBack : Nat) (d : String)
    (hd : d = fmtYMD (toLocalM (getHoursAgo now hoursBack)) ∨ d = fmtYMD (toLocalM now))
    (hmem : (⟨k, some (getHoursAgo now hoursBack)⟩ : R2Obj) ∈
      r2List ("gtfs-rt/" ++ provider ++ "/" ++ feedKind ++ "/dt=" ++ d ++ "/")) :
    (⟨k, getHoursAgo now hoursBack⟩ : HotFile) ∈
      listHotRTFiles toLocalM r2List now provider feedKind hoursBack := by
  simp only [listHotRTFiles]
  rw [mem_sortBy, List.mem_flatMap]
  refine ⟨d, ?_, ?_⟩
  · rcases hd with h | h <;> simp [h]
  · rw [List.mem_filterMap]
    exact ⟨⟨k, some (getHoursAgo now hoursBack)⟩, hmem, by simp⟩

theorem hot_boundary_included_witness :
    (⟨"k2", getHoursAgo 1000000000000 24⟩ : HotFile) ∈
      listHotRTFiles
        (fun t => if t = 999913600000 then ⟨2025, 1, 1, 0, 0, 0⟩ else ⟨2025, 1, 2, 0, 0, 0⟩)
        (fun p => if p = "gtfs-rt/stm/gtfsrt_vehicle_positions/dt=2025-01-01/"
          then [⟨"k2", some 999913600000⟩] else [])
        1000000000000 "stm" "gtfsrt_vehicle_positions" 24 :=
  hot_boundary_included
    (fun t => if t = 999913600000 then ⟨2025, 1, 1, 0, 0, 0⟩ else ⟨2025, 1, 2, 0, 0, 0⟩)
    (fun p => if p = "gtfs-rt/stm/gtfsrt_vehicle_positions/dt=2025-01-01/"
      then [⟨"k2", some 999913600000⟩] else [])
    1000000000000 "stm" "gtfsrt_vehicle_positions" "k2" 24 "2025-01-01"
    (Or.inl (by decide)) (by decide)

/-! ## C6: the hot path decodes only the freshest snapshot -/

/-- C6: whenever the hot window holds at least one snapshot, the handler's
chosen file (`files[0]`) is the most recent one — every hot file's upload
instant is at most the chosen one's — and the response is a function of that
single snapshot's bytes alone: two blob stores that agree on the chosen key
(but may differ arbitrarily on every other snapshot) yield identical
responses, so no other snapshot is ever decoded during the request. -/
theorem hot_path_single_decode (utf8 : List Nat → String) (toLocalM : Int → LocalTime)
    (r2List : String → List R2Obj) (fetch1 fetch2 : String → Option (List Nat))
    (now : Int) (provider routeId stopId : Option String) (latest : HotFile)
    (rest : List HotFile)
    (hfiles : listHotRTFiles toLocalM r2List now (jsOr provider "stm") "gtfsrt_trip_updates" 24
      = latest :: rest)
    (hagree : fetch1 latest.key = fetch2 latest.key) :
    (∀ f ∈ listHotRTFiles toLocalM r2List now (jsOr provider "stm") "gtfsrt_trip_updates" 24,
      f.uploaded ≤ latest.uploaded) ∧
    handleCurrentTripUpdates utf8 toLocalM r2List fetch1 now provider routeId stopId =
      handleCurrentTripUpdates utf8 toLocalM r2List fetch2 now provider routeId stopId := by
  constructor
  · have hsorted : (listHotRTFiles toLocalM r2List now (jsOr provider "stm")
        "gtfsrt_trip_updates" 24).Pairwise
        (fun a b : HotFile => (decide (b.uploaded ≤ a.uploaded)) = true) := by
      simp only [listHotRTFiles]
      apply pairwise_sortBy
      · intro a b c hab hbc
        simp only [decide_eq_true_eq] at *
        omega
      · intro a b
        simp only [decide_eq_true_eq]
        omega
    rw [hfiles] at hsorted
    rw [List.pairwise_cons] at hsorted
    intro f hf
    rw [hfiles] at hf
    rcases List.mem_cons.mp hf with hf | hf
    · subst hf
      exact le_refl _
    · have := hsorted.1 f hf
      simpa using this
  · simp only [handleCurrentTripUpdates]
    rw [hfiles]
    simp only []
    rw [hagree]

theorem hot_path_single_decode_witness :
    (∀ f ∈ listHotRTFiles
        (fun t => if t = 999913600000 then ⟨2025, 1, 1, 0, 0, 0⟩ else ⟨2025, 1, 2, 0, 0, 0⟩)
        (fun p => if p = "gtfs-rt/stm/gtfsrt_trip_updates/dt=2025-01-01/"
          then [⟨"k1", some 999913600000⟩] else [])
        1000000000000 (jsOr none "stm") "gtfsrt_trip_updates" 24,
      f.uploaded ≤ (⟨"k1", 999913600000⟩ : HotFile).uploaded) ∧
    handleCurrentTripUpdates (fun _ => "")
        (fun t => if t = 999913600000 then ⟨2025, 1, 1, 0, 0, 0⟩ else ⟨2025, 1, 2, 0, 0, 0⟩)
        (fun p => if p = "gtfs-rt/stm/gtfsrt_trip_updates/dt=2025-01-01/"
          then [⟨"k1", some 999913600000⟩] else [])
        (fun _ => some [18, 0]) 1000000000000 none none none =
      handleCurrentTripUpdates (fun _ => "")
        (fun t => if t = 999913600000 then ⟨2025, 1, 1, 0, 0, 0⟩ else ⟨2025, 1, 2, 0, 0, 0⟩)
        (fun p => if p = "gtfs-rt/stm/gtfsrt_trip_updates/dt=2025-01-01/"
          then [⟨"k1", some 999913600000⟩] else [])
        (fun s => if s = "k1" then some [18, 0] else none) 1000000000000 none none none :=
  hot_path_single_decode (fun _ => "")
    (fun t => if t = 999913600000 then ⟨2025, 1, 1, 0, 0, 0⟩ else ⟨2025, 1, 2, 0, 0, 0⟩)
    (fun p => if p = "gtfs-rt/stm/gtfsrt_trip_updates/dt=2025-01-01/"
      then [⟨"k1", some 999913600000⟩] else [])
    (fun _ => some [18, 0]) (fun s => if s = "k1" then some [18, 0] else none)
    1000000000000 none none none ⟨"k1", 999913600000⟩ [] (by decide) (by decide)

/-! ## C7: never-aggregated versus aggregated-but-empty -/

/-- C7 counterexample: a partition that was never aggregated (empty store)
and a partition that was aggregated but produced zero rows (the store holds
rows, just none for the queried `(provider, date)`) are answered with the
**same** `404 'Historical data not found'` response — `handleHistorical`
collapses `!data || data.length === 0` into one signal, so a caller cannot
distinguish the two cases. -/
theorem historical_not_found_counterexample :
    handleHistorical ⟨[], [], [], []⟩ (some "stm") (some "gtfsrt_trip_updates")
        (some "2025-01-01") none none none = HistResult.notFound ∧
    handleHistorical
        ⟨[⟨"stm", "2025-01-02", some 5, some "r7", some "s1", none, some "t1"⟩],
         [⟨"stm", "2025-01-02", none, some "r7", some "s1", none, some "t1"⟩], [], []⟩
        (some "stm") (some "gtfsrt_trip_updates") (some "2025-01-01") none none none
      = HistResult.notFound := by
  decide

/-- C7 (amended): a historical query for a partition whose result set is
empty is answered with the `404 'Historical data not found'` error whether
the partition was never aggregated or was aggregated with zero matching
rows; the store records no aggregation marker, so the two cases produce the
same response and are not distinguishable by callers. -/
theorem handleHistorical_notFound_on_empty (db : D1)
    (provider feedKind date hour routeId stopId : Option String)
    (hdate : jsTruthy date = true)
    (hq : queryD1Historical db (jsOr provider "stm") (jsOr feedKind "gtfsrt_trip_updates")
        (date.getD "") (if jsTruthy hour then "hourly" else "daily")
        (if jsTruthy hour then some (jsParseInt (hour.getD "")) else none) routeId stopId
      = some [] ∨
      queryD1Historical db (jsOr provider "stm") (jsOr feedKind "gtfsrt_trip_updates")
        (date.getD "") (if jsTruthy hour then "hourly" else "daily")
        (if jsTruthy hour then some (jsParseInt (hour.getD "")) else none) routeId stopId
      = none) :
    handleHistorical db provider feedKind date hour routeId stopId = HistResult.notFound := by
  simp only [handleHistorical]
  rw [if_pos hdate]
  rcases hq with hq | hq <;> rw [hq]

theorem handleHistorical_notFound_on_empty_witness :
    handleHistorical
        ⟨[⟨"stm", "2025-01-03", some 9, some "r7", some "s1", none, some "t1"⟩], [], [], []⟩
        none none (some "2025-01-01") (some "9") none none = HistResult.notFound :=
  handleHistorical_notFound_on_empty
    ⟨[⟨"stm", "2025-01-03", some 9, some "r7", some "s1", none, some "t1"⟩], [], [], []⟩
    none none (some "2025-01-01") (some "9") none none (by decide) (Or.inl (by decide))

/-! ## C8: aggregation idempotence -/

/-- Lookup by primary key. -/
def findRow (k : Option Nat × Option String × Option String × Option String)
    (t : List DelayAggRow) : Option DelayAggRow :=
  t.find? (fun r => decide (pkOf r = k))

theorem upsert_pk_nodup (row : DelayAggRow) (t : List DelayAggRow) (h : pkNodup t) :
    pkNodup (upsert row t) := by
  unfold upsert
  split
  · rename_i hany
    unfold pkNodup
    have hmap : (t.map fun r => if pkOf r = pkOf row then row else r).map pkOf = t.map pkOf := by
      rw [List.map_map]
      apply List.map_congr_left
      intro r _
      simp only [Function.comp_apply]
      split
      · rename_i hpk
        exact hpk.symm
      · rfl
    rw [hmap]
    exact h
  · rename_i hany
    unfold pkNodup
    rw [List.map_append, List.nodup_append]
    refine ⟨h, by simp, ?_⟩
    intro k hk hk2
    simp only [List.map_cons, List.map_nil, List.mem_singleton] at hk2
    subst hk2
    rw [List.mem_map] at hk
    obtain ⟨r, hr, hpk⟩ := hk
    exact hany (List.any_eq_true.mpr ⟨r, hr, by simp [hpk]⟩)

theorem findRow_map_replace (row : DelayAggRow) :
    ∀ t : List DelayAggRow, (∃ r ∈ t, pkOf r = pkOf row) →
      List.find? (fun r => decide (pkOf r = pkOf row))
        (t.map (fun r => if pkOf r = pkOf row then row else r)) = some row := by
  intro t
  induction t with
  | nil =>
    rintro ⟨r, hr, _⟩
    exact absurd hr (List.not_mem_nil r)
  | cons x xs ih =>
    rintro ⟨r, hr, hpr⟩
    simp only [List.map_cons]
    by_cases hx : pkOf x = pkOf row
    · rw [if_pos hx]
      exact List.find?_cons_of_pos _ (by simp)
    · rw [if_neg hx]
      rw [List.find?_cons_of_neg _ (by simp [hx])]
      apply ih
      rcases List.mem_cons.mp hr with h | h
      · subst h
        exact absurd hpr hx
      · exact ⟨r, h, hpr⟩

theorem findRow_upsert_self (row : DelayAggRow) (t : List DelayAggRow) :
    findRow (pkOf row) (upsert row t) = some row := by
  unfold upsert findRow
  split
  · rename_i hany
    rw [List.any_eq_true] at hany
    obtain ⟨r0, hr0, hp0⟩ := hany
    simp only [decide_eq_true_eq] at hp0
    exact findRow_map_replace row t ⟨r0, hr0, hp0⟩
  · rename_i hany
    rw [List.find?_append]
    have hnone : t.find? (fun r => decide (pkOf r = pkOf row)) = none := by
      rw [List.find?_eq_none]
      intro r hr
      simp only [decide_eq_true_eq]
      intro hc
      exact hany (List.any_eq_true.mpr ⟨r, hr, by simp [hc]⟩)
    rw [hnone]
    simp only [Option.none_or]
    exact List.find?_cons_of_pos _ (by simp)

theorem findRow_map_replace_other (row : DelayAggRow)
    (k : Option Nat × Option String × Option String × Option String) (hne : k ≠ pkOf row) :
    ∀ t : List DelayAggRow,
      List.find? (fun r => decide (pkOf r = k))
          (t.map (fun r => if pkOf r = pkOf row then row else r))
        = List.find? (fun r => decide (pkOf r = k)) t := by
  intro t
  induction t with
  | nil => simp
  | cons x xs ih =>
    simp only [List.map_cons]
    by_cases hx : pkOf x = pkOf row
    · rw [if_pos hx]
      rw [List.find?_cons_of_neg _
        (by simp only [decide_eq_true_eq]; intro hc; exact hne hc.symm)]
      rw [List.find?_cons_of_neg _
        (by simp only [decide_eq_true_eq]; rw [hx]; intro hc; exact hne hc.symm)]
      exact ih
    · rw [if_neg hx]
      by_cases hxk : pkOf x = k
      · rw [List.find?_cons_of_pos _ (by simp [hxk]),
          List.find?_cons_of_pos _ (by simp [hxk])]
      · rw [List.find?_cons_of_neg _ (by simp [hxk]),
          List.find?_cons_of_neg _ (by simp [hxk])]
        exact ih

theorem findRow_upsert_other (row : DelayAggRow) (t : List DelayAggRow)
    (k : Option Nat × Option String × Option String × Option String) (hne : k ≠ pkOf row) :
    findRow k (upsert row t) = findRow k t := by
  unfold upsert findRow
  split
  · exact findRow_map_replace_other row k hne t
  · rw [List.find?_append]
    cases hfind : List.find? (fun r => decide (pkOf r = k)) t with
    | some r => simp
    | none =>
      simp only [Option.none_or]
      rw [List.find?_cons_of_neg _
        (by simp only [decide_eq_true_eq]; intro hc; exact hne hc.symm)]
      simp

theorem upsertAll_cons (r : DelayAggRow) (rs : List DelayAggRow) (t : List DelayAggRow) :
    upsertAll (r :: rs) t = upsertAll rs (upsert r t) := by
  simp [upsertAll]

theorem findRow_upsertAll_other (rs : List DelayAggRow) (t : List DelayAggRow)
    (k : Option Nat × Option String × Option String × Option String)
    (h : ∀ row ∈ rs, k ≠ pkOf row) :
    findRow k (upsertAll rs t) = findRow k t := by
  induction rs generalizing t with
  | nil => simp [upsertAll]
  | cons r rs ih =>
    rw [upsertAll_cons]
    rw [ih (upsert r t) (fun row hrow => h row (List.mem_cons_of_mem r hrow))]
    exact findRow_upsert_other r t k (h r (List.mem_cons_self r rs))

theorem findRow_upsertAll_self (rs : List DelayAggRow) (t : List DelayAggRow)
    (hnd : (rs.map pkOf).Nodup) :
    ∀ row ∈ rs, findRow (pkOf row) (upsertAll rs t) = some row := by
  induction rs generalizing t with
  | nil => simp
  | cons r rs ih =>
    simp only [List.map_cons, List.nodup_cons] at hnd
    intro row hrow
    rcases List.mem_cons.mp hrow with hrow | hrow
    · subst hrow
      rw [upsertAll_cons]
      rw [findRow_upsertAll_other rs (upsert row t) (pkOf row) ?_]
      · exact findRow_upsert_self row t
      · intro r2 hr2 hc
        exact hnd.1 (hc ▸ List.mem_map_of_mem pkOf hr2)
    · rw [upsertAll_cons]
      exact ih (upsert r t) hnd.2 row hrow

theorem upsert_eq_self (row : DelayAggRow) (t : List DelayAggRow) (hnd : pkNodup t)
    (hfind : findRow (pkOf row) t = some row) : upsert row t = t := by
  have hmem : row ∈ t := List.mem_of_find?_eq_some hfind
  unfold upsert
  rw [if_pos (List.any_eq_true.mpr ⟨row, hmem, by simp⟩)]
  have hinj := List.inj_on_of_nodup_map hnd
  have hpt : ∀ r ∈ t, (if pkOf r = pkOf row then row else r) = id r := by
    intro r hr
    simp only [id]
    split
    · rename_i hpk
      exact (hinj hr hmem hpk).symm
    · rfl
  rw [List.map_congr_left hpt, List.map_id]

theorem upsertAll_eq_self (rs : List DelayAggRow) (t : List DelayAggRow) (hnd : pkNodup t)
    (h : ∀ row ∈ rs, findRow (pkOf row) t = some row) : upsertAll rs t = t := by
  induction rs with
  | nil => simp [upsertAll]
  | cons r rs ih =>
    rw [upsertAll_cons, upsert_eq_self r t hnd (h r (List.mem_cons_self r rs))]
    exact ih (fun row hrow => h row (List.mem_cons_of_mem r hrow))

theorem upsertAll_pk_nodup (rs : List DelayAggRow) (t : List DelayAggRow) (hnd : pkNodup t) :
    pkNodup (upsertAll rs t) := by
  induction rs generalizing t with
  | nil => simpa [upsertAll] using hnd
  | cons r rs ih =>
    rw [upsertAll_cons]
    exact ih (upsert r t) (upsert_pk_nodup r t hnd)

/-- Applying the same upsert batch twice leaves the store exactly as one
application does, provided the batch has pairwise-distinct primary keys and
the store satisfies its PRIMARY KEY invariant. -/
theorem upsertAll_idem (rs : List DelayAggRow) (t : List DelayAggRow) (hnd : pkNodup t)
    (hrs : (rs.map pkOf).Nodup) : upsertAll rs (upsertAll rs t) = upsertAll rs t :=
  upsertAll_eq_self rs (upsertAll rs t) (upsertAll_pk_nodup rs t hnd)
    (findRow_upsertAll_self rs t hrs)

theorem pkOf_buildRow (k : Option Nat × Option String × Option String × Option String)
    (ms : List DelayEntity) : pkOf (buildRow k ms) = k := by
  rcases k with ⟨a, b, c, d⟩
  rfl

theorem aggregateRows_pk_nodup
    (keyOf : DelayEntity → Option Nat × Option String × Option String × Option String)
    (es : List DelayEntity) : ((aggregateRows keyOf es).map pkOf).Nodup := by
  unfold aggregateRows
  rw [List.map_map]
  have hpt : ∀ k ∈ (es.map keyOf).dedup,
      (pkOf ∘ fun k => buildRow k (es.filter (fun e => decide (keyOf e = k)))) k = id k := by
    intro k _
    simp only [Function.comp_apply, id]
    exact pkOf_buildRow k _
  rw [List.map_congr_left hpt, List.map_id]
  exact List.nodup_dedup _

/-- C8: aggregation is idempotent.  Over an unchanged entity set for a
partition, running the aggregate operation twice produces exactly the same
stored hourly and daily rows as running it once: each recomputed row
overwrites the previous row for its primary key in place (upsert), no row is
duplicated, and the recomputed exact-rational averages coincide, so nothing
drifts.  The hypotheses are the PRIMARY KEY invariants of
`rt_delays_hourly` / `rt_delays_daily` from migration 002. -/
theorem aggregate_idempotent (es : List DelayEntity)
    (t : List DelayAggRow × List DelayAggRow) (h1 : pkNodup t.1) (h2 : pkNodup t.2) :
    runAggregate es (runAggregate es t) = runAggregate es t := by
  unfold runAggregate
  refine Prod.ext ?_ ?_
  · exact upsertAll_idem _ _ h1 (aggregateRows_pk_nodup hourlyKeyOf es)
  · exact upsertAll_idem _ _ h2 (aggregateRows_pk_nodup dailyKeyOf es)

theorem aggregate_idempotent_witness :
    runAggregate [⟨5, some "r7", some "s1", some "t1", some (-3), none⟩]
        (runAggregate [⟨5, some "r7", some "s1", some "t1", some (-3), none⟩] ([], []))
      = runAggregate [⟨5, some "r7", some "s1", some "t1", some (-3), none⟩] ([], []) :=
  aggregate_idempotent [⟨5, some "r7", some "s1", some "t1", some (-3), none⟩] ([], [])
    (by simp [pkNodup]) (by simp [pkNodup])

/-! ## C9: the storage key format -/

/-- Modelled from the spec: the storage key format the spec's §6 declares,
`feedKind/sourceKey/feedKind/date=YYYY-MM-DD/feedKind_localTimestamp`,
written out for comparison with the key the code builds. -/
def specStorageKey (feedKind sourceKey date ts : String) : String :=
  feedKind ++ "/" ++ sourceKey ++ "/" ++ feedKind ++ "/date=" ++ date ++ "/"
    ++ feedKind ++ "_" ++ ts

/-- C9 counterexample: for a concrete save, the key the code stores under
starts with the literal `gtfs-rt/` segment, uses the `dt=` partition prefix
and appends `.pb` — it differs from the spec's
`feedKind/sourceKey/feedKind/date=.../feedKind_timestamp` format. -/
theorem storage_key_format_counterexample :
    (saveRT (fun _ => "h") (fun _ => ⟨2025, 1, 2, 3, 4, 5⟩) ⟨2025, 1, 2, 3, 4, 5⟩
        Store.empty "stm" 1 "gtfsrt_trip_updates" []).2 =
      SaveResult.saved
        "gtfs-rt/stm/gtfsrt_trip_updates/dt=2025-01-02/gtfsrt_trip_updates_2025-01-02T03-04-05.pb" ∧
    specStorageKey "gtfsrt_trip_updates" "stm" "2025-01-02" "2025-01-02T03-04-05" =
      "gtfsrt_trip_updates/stm/gtfsrt_trip_updates/date=2025-01-02/gtfsrt_trip_updates_2025-01-02T03-04-05" ∧
    "gtfs-rt/stm/gtfsrt_trip_updates/dt=2025-01-02/gtfsrt_trip_updates_2025-01-02T03-04-05.pb" ≠
      specStorageKey "gtfsrt_trip_updates" "stm" "2025-01-02" "2025-01-02T03-04-05" := by
  decide

/-- C9 (amended): for every stored snapshot the storage key equals
`gtfs-rt/SOURCEKEY/FEEDKIND/dt=YYYY-MM-DD/FEEDKIND_LOCALTIMESTAMP.pb`, where
the calendar date `fmtYMD now` and the timestamp `fmtISO now` are rendered
from the Montreal-local (`America/Toronto`) components of the current
instant — `toLocaleString` with a fixed `timeZone`, never the executing
process's wall-clock zone — and the blob is written under exactly that
key. -/
theorem saveRT_storage_key_format (hash : List Nat → String) (toLocal : Nat → LocalTime)
    (now : LocalTime) (st : Store) (pkey : String) (fid : Nat) (kind : String) (ab : List Nat)
    (hnew : rowCount (tableOf st kind) pkey (hash ab) = 0) :
    (saveRT hash toLocal now st pkey fid kind ab).2 =
      SaveResult.saved ("gtfs-rt/" ++ pkey ++ "/" ++ kind ++ "/dt=" ++ fmtYMD now ++ "/"
        ++ (kind ++ "_" ++ fmtISO now ++ ".pb")) ∧
    (saveRT hash toLocal now st pkey fid kind ab).1.r2 =
      st.r2 ++ [("gtfs-rt/" ++ pkey ++ "/" ++ kind ++ "/dt=" ++ fmtYMD now ++ "/"
        ++ (kind ++ "_" ++ fmtISO now ++ ".pb"), ab)] := by
  have hany : ¬ ((tableOf st kind).any
      fun r => r.provider_key = pkey ∧ r.hash_sha256 = hash ab) = true := by
    intro hh
    have := (rowCount_pos_iff _ _ _).mp hh
    omega
  constructor
  · simp only [saveRT]
    rw [if_neg hany]
  · simp only [saveRT]
    rw [if_neg hany]
    simp only []
    unfold setTable
    by_cases hk : kind = "gtfsrt_trip_updates" <;> simp [hk]

theorem saveRT_storage_key_format_witness :
    (saveRT (fun _ => "h") (fun _ => ⟨2025, 6, 7, 8, 9, 10⟩) ⟨2025, 6, 7, 8, 9, 10⟩
        Store.empty "stm" 3 "gtfsrt_vehicle_positions" [18, 0]).2 =
      SaveResult.saved ("gtfs-rt/" ++ "stm" ++ "/" ++ "gtfsrt_vehicle_positions" ++ "/dt="
        ++ fmtYMD ⟨2025, 6, 7, 8, 9, 10⟩ ++ "/"
        ++ ("gtfsrt_vehicle_positions" ++ "_" ++ fmtISO ⟨2025, 6, 7, 8, 9, 10⟩ ++ ".pb")) ∧
    (saveRT (fun _ => "h") (fun _ => ⟨2025, 6, 7, 8, 9, 10⟩) ⟨2025, 6, 7, 8, 9, 10⟩
        Store.empty "stm" 3 "gtfsrt_vehicle_positions" [18, 0]).1.r2 =
      Store.empty.r2 ++ [("gtfs-rt/" ++ "stm" ++ "/" ++ "gtfsrt_vehicle_positions" ++ "/dt="
        ++ fmtYMD ⟨2025, 6, 7, 8, 9, 10⟩ ++ "/"
        ++ ("gtfsrt_vehicle_positions" ++ "_" ++ fmtISO ⟨2025, 6, 7, 8, 9, 10⟩ ++ ".pb"),
        [18, 0])] :=
  saveRT_storage_key_format (fun _ => "h") (fun _ => ⟨2025, 6, 7, 8, 9, 10⟩)
    ⟨2025, 6, 7, 8, 9, 10⟩ Store.empty "stm" 3 "gtfsrt_vehicle_positions" [18, 0] (by decide)

end Transit
